import Mathlib

set_option maxHeartbeats 1000000

/- Shallow embedding of the cv-converter repository (src/utils.py,
   src/extraction.py, src/streamlit_app.py) together with theorems about its
   behaviour.  Python strings are modelled as `List Char`; the Python case
   conversions `str.upper` / `str.lower` / `str.capitalize` are modelled on
   the ASCII range (identity on every other character). -/

abbrev Str := List Char

/-- Characters of a Lean string literal; used to transcribe Python string
literals into the `List Char` model. -/
def str (s : String) : Str := s.data

/-- ASCII lowercase test, Python `c.islower()` on the ASCII range. -/
def isLowerCh (c : Char) : Bool := decide (97 ≤ c.toNat ∧ c.toNat ≤ 122)

/-- ASCII uppercase test, Python `c.isupper()` on the ASCII range. -/
def isUpperCh (c : Char) : Bool := decide (65 ≤ c.toNat ∧ c.toNat ≤ 90)

/-- ASCII decimal digit test, regex `\d` / Python `c.isdigit()` on ASCII. -/
def isDigitCh (c : Char) : Bool := decide (48 ≤ c.toNat ∧ c.toNat ≤ 57)

/-- ASCII letter test. -/
def isAlphaCh (c : Char) : Bool := isLowerCh c || isUpperCh c

/-- Word character, the regex class `\w` on the ASCII range. -/
def isWordCh (c : Char) : Bool := isAlphaCh c || isDigitCh c || decide (c.toNat = 95)

/-- Python whitespace (the regex class `\s` / `str.strip` / `str.split`
default separators): space, tab, newline, vertical tab, form feed, carriage
return. -/
def isPySpace (c : Char) : Bool := decide (c.toNat = 32 ∨ (9 ≤ c.toNat ∧ c.toNat ≤ 13))

/-- Python `c.upper()` for a single character, ASCII range. -/
def toUpperCh (c : Char) : Char := if isLowerCh c then Char.ofNat (c.toNat - 32) else c

/-- Python `c.lower()` for a single character, ASCII range. -/
def toLowerCh (c : Char) : Char := if isUpperCh c then Char.ofNat (c.toNat + 32) else c

theorem char_toNat_ofNat (n : Nat) (h : n < 55296) : (Char.ofNat n).toNat = n := by
  have hv : n.isValidChar := Or.inl h
  simp [Char.ofNat, hv, Char.ofNatAux, Char.toNat, UInt32.toNat, UInt32.ofNatCore]

theorem toNat_toUpperCh_of_lower (c : Char) (h : isLowerCh c = true) :
    (toUpperCh c).toNat = c.toNat - 32 := by
  simp only [isLowerCh, decide_eq_true_eq] at h
  rw [toUpperCh, if_pos (by simp [isLowerCh, h])]
  exact char_toNat_ofNat _ (by omega)

theorem toNat_toLowerCh_of_upper (c : Char) (h : isUpperCh c = true) :
    (toLowerCh c).toNat = c.toNat + 32 := by
  simp only [isUpperCh, decide_eq_true_eq] at h
  rw [toLowerCh, if_pos (by simp [isUpperCh, h])]
  exact char_toNat_ofNat _ (by omega)

theorem toUpperCh_idem (c : Char) : toUpperCh (toUpperCh c) = toUpperCh c := by
  by_cases h : isLowerCh c = true
  · have h1 := toNat_toUpperCh_of_lower c h
    simp only [isLowerCh, decide_eq_true_eq] at h
    have h2 : isLowerCh (toUpperCh c) = false := by
      simp only [isLowerCh, decide_eq_false_iff_not, h1]
      omega
    have hstep : toUpperCh (toUpperCh c) =
        if isLowerCh (toUpperCh c) then Char.ofNat ((toUpperCh c).toNat - 32)
        else toUpperCh c := rfl
    rw [hstep, h2]
    simp
  · have hc : toUpperCh c = c := by rw [toUpperCh, if_neg (by simp_all)]
    rw [hc, hc]

theorem toLowerCh_idem (c : Char) : toLowerCh (toLowerCh c) = toLowerCh c := by
  by_cases h : isUpperCh c = true
  · have h1 := toNat_toLowerCh_of_upper c h
    simp only [isUpperCh, decide_eq_true_eq] at h
    have h2 : isUpperCh (toLowerCh c) = false := by
      simp only [isUpperCh, decide_eq_false_iff_not, h1]
      omega
    have hstep : toLowerCh (toLowerCh c) =
        if isUpperCh (toLowerCh c) then Char.ofNat ((toLowerCh c).toNat + 32)
        else toLowerCh c := rfl
    rw [hstep, h2]
    simp
  · have hc : toLowerCh c = c := by rw [toLowerCh, if_neg (by simp_all)]
    rw [hc, hc]

theorem isPySpace_toUpperCh (c : Char) : isPySpace (toUpperCh c) = isPySpace c := by
  by_cases h : isLowerCh c = true
  · have h1 := toNat_toUpperCh_of_lower c h
    simp only [isLowerCh, decide_eq_true_eq] at h
    simp only [isPySpace, h1, decide_eq_decide]
    omega
  · rw [toUpperCh, if_neg (by simp_all)]

theorem isPySpace_toLowerCh (c : Char) : isPySpace (toLowerCh c) = isPySpace c := by
  by_cases h : isUpperCh c = true
  · have h1 := toNat_toLowerCh_of_upper c h
    simp only [isUpperCh, decide_eq_true_eq] at h
    simp only [isPySpace, h1, decide_eq_decide]
    omega
  · rw [toLowerCh, if_neg (by simp_all)]

theorem dropWhile_length_le (p : α → Bool) (l : List α) :
    (l.dropWhile p).length ≤ l.length := by
  induction l with
  | nil => simp [List.dropWhile]
  | cons c t ih =>
    simp only [List.dropWhile]
    split
    · exact Nat.le_trans ih (Nat.le_succ _)
    · exact Nat.le_refl _

/-- Helper for `pySplitWs`: single-pass whitespace splitter carrying the
current word reversed in an accumulator (structurally recursive so that it
evaluates inside the kernel). -/
def pySplitWsAux : Str → Str → List Str
  | acc, [] => if acc = [] then [] else [acc.reverse]
  | acc, c :: t =>
    if isPySpace c then
      if acc = [] then pySplitWsAux [] t else acc.reverse :: pySplitWsAux [] t
    else pySplitWsAux (c :: acc) t

/-- Python `s.split()` with no argument: split on runs of whitespace,
discarding empty parts. -/
def pySplitWs (s : Str) : List Str := pySplitWsAux [] s

/-- Reference formulation of `pySplitWs` in terms of `takeWhile` and
`dropWhile`; used in proofs. -/
def pySplitWsSpec : Str → List Str
  | [] => []
  | c :: t =>
    if isPySpace c then pySplitWsSpec t
    else (c :: t.takeWhile (fun d => !isPySpace d)) ::
      pySplitWsSpec (t.dropWhile (fun d => !isPySpace d))
termination_by s => s.length
decreasing_by
  · simp only [List.length_cons]; omega
  · simp only [List.length_cons]
    exact Nat.lt_succ_of_le (dropWhile_length_le _ t)

theorem pySplitWsAux_eq (s : Str) : ∀ acc : Str,
    pySplitWsAux acc s =
      if acc = [] then pySplitWsSpec s
      else (acc.reverse ++ s.takeWhile (fun d => !isPySpace d)) ::
        pySplitWsSpec (s.dropWhile (fun d => !isPySpace d)) := by
  induction s with
  | nil =>
    intro acc
    by_cases h : acc = [] <;> simp [pySplitWsAux, h, pySplitWsSpec]
  | cons c t ih =>
    intro acc
    by_cases hc : isPySpace c = true
    · have h1 : pySplitWsAux acc (c :: t) =
          if acc = [] then pySplitWsAux [] t else acc.reverse :: pySplitWsAux [] t := by
        rw [pySplitWsAux, if_pos hc]
      rw [h1, ih []]
      by_cases h : acc = []
      · rw [if_pos h, if_pos rfl, if_pos h, pySplitWsSpec, if_pos hc]
      · rw [if_neg h, if_pos rfl, if_neg h, List.takeWhile_cons, List.dropWhile_cons]
        simp only [hc, Bool.not_true, if_neg (by simp : ¬(false = true))]
        rw [pySplitWsSpec, if_pos hc, List.append_nil]
    · have hcf : isPySpace c = false := by simpa using hc
      have h1 : pySplitWsAux acc (c :: t) = pySplitWsAux (c :: acc) t := by
        rw [pySplitWsAux, if_neg (by simp [hcf])]
      rw [h1, ih (c :: acc), if_neg (by simp)]
      rw [List.takeWhile_cons, List.dropWhile_cons]
      simp only [hcf, Bool.not_false, if_pos rfl]
      by_cases h : acc = []
      · rw [if_pos h]; subst h
        rw [pySplitWsSpec, if_neg (by simp [hcf])]
        simp
      · rw [if_neg h]
        simp

theorem pySplitWs_eq_spec (s : Str) : pySplitWs s = pySplitWsSpec s := by
  rw [pySplitWs, pySplitWsAux_eq s [], if_pos rfl]

/-- Python `s.strip()`: remove leading and trailing whitespace. -/
def pyStrip (s : Str) : Str :=
  ((s.dropWhile isPySpace).reverse.dropWhile isPySpace).reverse

/-- Python `word.isupper()` on the ASCII model: at least one cased character
and every cased character uppercase. -/
def pyIsUpper (w : Str) : Bool :=
  w.any isAlphaCh && w.all (fun c => !isAlphaCh c || isUpperCh c)

/-- Python `word.capitalize()` on the ASCII model: first character uppercased,
the rest lowercased. -/
def pyCapitalize : Str → Str
  | [] => []
  | c :: t => toUpperCh c :: t.map toLowerCh

/-- Transformation applied to each whitespace-separated word by
`format_name` (utils.py lines 128-133). -/
def fixWord (w : Str) : Str :=
  if pyIsUpper w && w.length > 1 then pyCapitalize w else w

/-- Embedding of `format_name` (utils.py lines 119-135): convert a name from
ALL CAPS to Proper Case, word by word. -/
def format_name (name : Str) : Str :=
  if name = [] then []
  else List.intercalate [' '] ((pySplitWs name).map fixWord)

theorem pyCapitalize_idem (w : Str) : pyCapitalize (pyCapitalize w) = pyCapitalize w := by
  cases w with
  | nil => rfl
  | cons c t =>
    simp only [pyCapitalize, toUpperCh_idem, List.map_map]
    congr 1
    exact List.map_congr_left (fun c _ => toLowerCh_idem c)

theorem fixWord_idem (w : Str) : fixWord (fixWord w) = fixWord w := by
  by_cases h : (pyIsUpper w && w.length > 1) = true
  · have h1 : fixWord w = pyCapitalize w := by rw [fixWord, if_pos h]
    rw [h1, fixWord]
    split
    · exact pyCapitalize_idem w
    · rfl
  · have h1 : fixWord w = w := by rw [fixWord, if_neg h]
    rw [h1, h1]

theorem pySplitWs_ne_nil (s : Str) : ∀ w ∈ pySplitWsSpec s, w ≠ [] := by
  induction s using pySplitWsSpec.induct with
  | case1 => intro w hw; simp [pySplitWsSpec] at hw
  | case2 c t hc ih =>
    intro w hw
    rw [pySplitWsSpec, if_pos hc] at hw
    exact ih w hw
  | case3 c t hc ih =>
    intro w hw
    rw [pySplitWsSpec, if_neg hc] at hw
    rcases List.mem_cons.mp hw with hw | hw
    · simp [hw]
    · exact ih w hw

theorem pySplitWs_nospace (s : Str) :
    ∀ w ∈ pySplitWsSpec s, ∀ c ∈ w, isPySpace c = false := by
  induction s using pySplitWsSpec.induct with
  | case1 => intro w hw; simp [pySplitWsSpec] at hw
  | case2 c t hc ih =>
    intro w hw
    rw [pySplitWsSpec, if_pos hc] at hw
    exact ih w hw
  | case3 c t hc ih =>
    intro w hw
    rw [pySplitWsSpec, if_neg hc] at hw
    rcases List.mem_cons.mp hw with hw | hw
    · subst hw
      intro d hd
      rcases List.mem_cons.mp hd with hd | hd
      · subst hd; simpa using hc
      · have := List.mem_takeWhile_imp hd
        simpa using this
    · exact ih w hw

theorem takeWhile_all {α : Type} (p : α → Bool) (l : List α)
    (h : ∀ a ∈ l, p a = true) : l.takeWhile p = l := by
  induction l with
  | nil => rfl
  | cons a t ih =>
    rw [List.takeWhile_cons, h a (List.mem_cons_self a t)]
    exact congrArg (a :: ·) (ih (fun b hb => h b (List.mem_cons_of_mem a hb)))

theorem dropWhile_all {α : Type} (p : α → Bool) (l : List α)
    (h : ∀ a ∈ l, p a = true) : l.dropWhile p = [] := by
  induction l with
  | nil => rfl
  | cons a t ih =>
    rw [List.dropWhile_cons, h a (List.mem_cons_self a t)]
    simpa using ih (fun b hb => h b (List.mem_cons_of_mem a hb))

theorem takeWhile_append_all {α : Type} (p : α → Bool) (l : List α) (x : α) (r : List α)
    (h : ∀ a ∈ l, p a = true) (hx : p x = false) :
    (l ++ x :: r).takeWhile p = l := by
  induction l with
  | nil => simpa [List.takeWhile_cons] using hx
  | cons a t ih =>
    rw [List.cons_append, List.takeWhile_cons, h a (List.mem_cons_self a t)]
    exact congrArg (a :: ·) (ih (fun b hb => h b (List.mem_cons_of_mem a hb)))

theorem dropWhile_append_all {α : Type} (p : α → Bool) (l : List α) (x : α) (r : List α)
    (h : ∀ a ∈ l, p a = true) (hx : p x = false) :
    (l ++ x :: r).dropWhile p = x :: r := by
  induction l with
  | nil => simp [List.dropWhile_cons, hx]
  | cons a t ih =>
    rw [List.cons_append, List.dropWhile_cons, h a (List.mem_cons_self a t)]
    simpa using ih (fun b hb => h b (List.mem_cons_of_mem a hb))

theorem pySplitWs_word (w : Str) (hne : w ≠ [])
    (hns : ∀ c ∈ w, isPySpace c = false) : pySplitWsSpec w = [w] := by
  cases w with
  | nil => exact absurd rfl hne
  | cons c t =>
    have hc : isPySpace c = false := hns c (List.mem_cons_self c t)
    rw [pySplitWsSpec, if_neg (by simp [hc])]
    rw [takeWhile_all _ t (fun a ha => by
      simp [hns a (List.mem_cons_of_mem c ha)])]
    rw [dropWhile_all _ t (fun a ha => by
      simp [hns a (List.mem_cons_of_mem c ha)])]
    rw [pySplitWsSpec]

theorem pySplitWs_word_append (w r : Str) (hne : w ≠ [])
    (hns : ∀ c ∈ w, isPySpace c = false) :
    pySplitWsSpec (w ++ ' ' :: r) = w :: pySplitWsSpec r := by
  cases w with
  | nil => exact absurd rfl hne
  | cons c t =>
    have hc : isPySpace c = false := hns c (List.mem_cons_self c t)
    rw [List.cons_append, pySplitWsSpec, if_neg (by simp [hc])]
    rw [takeWhile_append_all _ t ' ' r (fun a ha => by
      simp [hns a (List.mem_cons_of_mem c ha)]) (by simp [isPySpace])]
    rw [dropWhile_append_all _ t ' ' r (fun a ha => by
      simp [hns a (List.mem_cons_of_mem c ha)]) (by simp [isPySpace])]
    rw [pySplitWsSpec, if_pos (by simp [isPySpace])]

theorem pySplitWs_intercalate (ws : List Str)
    (h : ∀ w ∈ ws, w ≠ [] ∧ ∀ c ∈ w, isPySpace c = false) :
    pySplitWsSpec (List.intercalate [' '] ws) = ws := by
  induction ws with
  | nil =>
    have h0 : List.intercalate [' '] ([] : List Str) = [] := by simp [List.intercalate]
    rw [h0, pySplitWsSpec]
  | cons w rest ih =>
    cases rest with
    | nil =>
      have hw := h w (List.mem_cons_self w [])
      have h1 : List.intercalate [' '] [w] = w := by simp [List.intercalate]
      rw [h1, pySplitWs_word w hw.1 hw.2]
    | cons w' rest' =>
      have hw := h w (List.mem_cons_self w _)
      have h1 : List.intercalate [' '] (w :: w' :: rest') =
          w ++ ' ' :: List.intercalate [' '] (w' :: rest') := by
        simp [List.intercalate, List.intersperse]
      rw [h1, pySplitWs_word_append w _ hw.1 hw.2]
      exact congrArg (w :: ·) (ih (fun v hv => h v (List.mem_cons_of_mem w hv)))

theorem fixWord_ne_nil (w : Str) (h : w ≠ []) : fixWord w ≠ [] := by
  cases w with
  | nil => exact absurd rfl h
  | cons c t =>
    rw [fixWord]
    split
    · simp [pyCapitalize]
    · simp

theorem fixWord_nospace (w : Str) (h : ∀ c ∈ w, isPySpace c = false) :
    ∀ c ∈ fixWord w, isPySpace c = false := by
  rw [fixWord]
  split
  · cases w with
    | nil => intro c hc; simp [pyCapitalize] at hc
    | cons c t =>
      intro d hd
      rcases List.mem_cons.mp hd with hd | hd
      · subst hd
        rw [isPySpace_toUpperCh]
        exact h c (List.mem_cons_self c t)
      · rcases List.mem_map.mp hd with ⟨a, ha, rfl⟩
        rw [isPySpace_toLowerCh]
        exact h a (List.mem_cons_of_mem c ha)
  · exact h

/-- C10: name normalization is idempotent — applying `format_name` twice gives
the same result as applying it once. -/
theorem format_name_idempotent (s : Str) :
    format_name (format_name s) = format_name s := by
  by_cases hs : s = []
  · subst hs; rfl
  · have hst : format_name s = List.intercalate [' '] ((pySplitWsSpec s).map fixWord) := by
      rw [format_name, if_neg hs, pySplitWs_eq_spec]
    by_cases ho : format_name s = []
    · rw [ho, format_name]; simp
    · rw [format_name, if_neg ho, pySplitWs_eq_spec, hst]
      have hprops : ∀ w ∈ (pySplitWsSpec s).map fixWord, w ≠ [] ∧ ∀ c ∈ w, isPySpace c = false := by
        intro w hw
        rcases List.mem_map.mp hw with ⟨v, hv, rfl⟩
        exact ⟨fixWord_ne_nil v (pySplitWs_ne_nil s v hv),
          fixWord_nospace v (pySplitWs_nospace s v hv)⟩
      rw [pySplitWs_intercalate _ hprops, List.map_map]
      congr 1
      exact List.map_congr_left (fun w _ => by
        simp only [Function.comp_apply, fixWord_idem])

/-- Python `s.lower()` on the ASCII model. -/
def toLowerStr (s : Str) : Str := s.map toLowerCh

/-- Python `s.upper()` on the ASCII model. -/
def toUpperStr (s : Str) : Str := s.map toUpperCh

/-- Substring containment, Python `pat in s`. -/
def containsSub (pat : Str) : Str → Bool
  | [] => pat.isPrefixOf []
  | c :: t => pat.isPrefixOf (c :: t) || containsSub pat t

/-- Synonym list checked by `format_date` (utils.py line 50). -/
def presentSynonyms : List Str :=
  [str "present", str "current", str "ongoing", str "till date", str "now", str "till now"]

/-- Numeric value of a digit string, Python `int(...)` restricted to the
all-digit strings that occur in this program. -/
def natOfDigits (s : Str) : Nat := s.foldl (fun n c => n * 10 + (c.toNat - 48)) 0

/-- Month-abbreviation table of `get_month_abbr` (utils.py lines 74-75). -/
def monthsAbbr : List Str :=
  [str "JAN", str "FEB", str "MAR", str "APR", str "MAY", str "JUN",
   str "JUL", str "AUG", str "SEP", str "OCT", str "NOV", str "DEC"]

/-- Embedding of `get_month_abbr` (utils.py lines 72-83).  The argument is
always an all-digit string (it comes from a regex digit group, zero-filled),
so the `int(...)` conversion never raises and the `try/except` is dead. -/
def get_month_abbr (month_num : Str) : Str :=
  let stripped := month_num.dropWhile (fun c => c = '0')
  let n := if stripped = [] then 0 else natOfDigits stripped
  if 1 ≤ n ∧ n ≤ 12 then (monthsAbbr.getD (n - 1) month_num) else month_num

/-- Python `s.zfill(w)` for the unsigned strings used here. -/
def zfill (w : Nat) (s : Str) : Str := List.replicate (w - s.length) '0' ++ s

/-- Matcher for the first regex of `format_date` (`\w` three or more, then a
separator '-', ' ' or '/', then `\d` four) anchored at the start of the
input, returning the two groups.  The regex engine's backtracking is vacuous
here: a shorter `\w{3,}` attempt ends on a word character, which is never in
the separator class, and `(\d{4})` has fixed length; so the maximal word run
is the only candidate. -/
def matchP1At (s : Str) : Option (Str × Str) :=
  let w := s.takeWhile isWordCh
  if 3 ≤ w.length then
    match s.drop w.length with
    | sep :: rest =>
      if sep = '-' || sep = ' ' || sep = '/' then
        let y := rest.take 4
        if y.length = 4 && y.all isDigitCh then some (w, y) else none
      else none
    | [] => none
  else none

/-- Leftmost `re.search` driver: try the anchored matcher at every start
position from the left. -/
def searchWith (m : Str → Option (Str × Str)) : Str → Option (Str × Str)
  | [] => none
  | c :: t =>
    match m (c :: t) with
    | some r => some r
    | none => searchWith m t

/-- Leftmost search for the pattern of `matchP1At`, Python `re.search` (the
`IGNORECASE` flag does not affect the character classes used). -/
def searchP1 : Str → Option (Str × Str) := searchWith matchP1At

/-- Helper for `matchP2At`: match a separator ('/' or '-') followed by
`(\d{4})` at the start of the input. -/
def sepDigits4 (rest : Str) : Option Str :=
  match rest with
  | sep :: r =>
    if sep = '/' || sep = '-' then
      let y := r.take 4
      if y.length = 4 && y.all isDigitCh then some y else none
    else none
  | [] => none

/-- Matcher for the numeric-month regex (`\d` one or two, then '/' or '-',
then `\d` four) anchored at the start of the input.
The greedy `\d{1,2}` first tries two digits; if the second character is a
digit but the continuation fails, the one-digit retry would need a separator
where that digit stands, so it also fails. -/
def matchP2At : Str → Option (Str × Str)
  | [] => none
  | c0 :: rest0 =>
    if isDigitCh c0 then
      match rest0 with
      | c1 :: rest1 =>
        if isDigitCh c1 then
          match sepDigits4 rest1 with
          | some y => some ([c0, c1], y)
          | none => none
        else
          match sepDigits4 rest0 with
          | some y => some ([c0], y)
          | none => none
      | [] => none
    else none

/-- Leftmost search for the numeric-month pattern of `matchP2At`. -/
def searchP2 : Str → Option (Str × Str) := searchWith matchP2At

/-- Matcher for `(\w+)\s+(\d{4})` anchored at the start of the input.  As for
`matchP1At`, greedy backtracking is vacuous: a shorter `\w+` run ends on a
word character (not whitespace) and a shorter `\s+` run ends on whitespace
(not a digit). -/
def matchP3At (s : Str) : Option (Str × Str) :=
  let w := s.takeWhile isWordCh
  if w.length ≠ 0 then
    let r1 := s.drop w.length
    let sp := r1.takeWhile isPySpace
    if sp.length ≠ 0 then
      let y := (r1.drop sp.length).take 4
      if y.length = 4 && y.all isDigitCh then some (w, y) else none
    else none
  else none

/-- Leftmost search for `(\w+)\s+(\d{4})`. -/
def searchP3 : Str → Option (Str × Str) := searchWith matchP3At

/-- Matcher for `(\w+),?\s+(\d{4})` anchored at the start of the input.  When
the optional comma is present but the continuation fails, retrying without it
would need `\s+` to match at the comma, so that retry also fails. -/
def matchP4At (s : Str) : Option (Str × Str) :=
  let w := s.takeWhile isWordCh
  if w.length ≠ 0 then
    let r1 := s.drop w.length
    let r2 := match r1 with
      | ',' :: r => r
      | r => r
    let sp := r2.takeWhile isPySpace
    if sp.length ≠ 0 then
      let y := (r2.drop sp.length).take 4
      if y.length = 4 && y.all isDigitCh then some (w, y) else none
    else none
  else none

/-- Leftmost search for `(\w+),?\s+(\d{4})`. -/
def searchP4 : Str → Option (Str × Str) := searchWith matchP4At

/-- Embedding of `format_date` (utils.py lines 44-70): synonym check first,
then the four regex patterns in order, unmatched input returned unchanged. -/
def format_date (date_str : Str) : Str :=
  if date_str = [] then []
  else if presentSynonyms.contains (toLowerStr date_str) then str "Present"
  else
    match searchP1 date_str with
    | some (w, y) => (toUpperStr w).take 3 ++ ' ' :: y
    | none =>
      match searchP2 date_str with
      | some (m, y) => get_month_abbr (zfill 2 m) ++ ' ' :: y
      | none =>
        match searchP3 date_str with
        | some (w, y) => toUpperStr (w.take 3) ++ ' ' :: y
        | none =>
          match searchP4 date_str with
          | some (w, y) => toUpperStr (w.take 3) ++ ' ' :: y
          | none => date_str

/-- Helper for `pySplitSep`: single pass splitting on a regex of the form
whitespace-star, separator class, whitespace-star.  The part accumulator is
kept reversed; whitespace immediately before a separator is stripped at
emission (the leading `\s*` of the match) and the flag records that
whitespace directly after a separator belongs to its trailing greedy `\s*`
and is dropped.  Both treatments delete exactly the whitespace runs adjacent
to a separator character, which is what the regex split does. -/
def pySplitSepAux (seps : List Char) : Bool → Str → Str → List Str
  | _, acc, [] => [acc.reverse]
  | skipWs, acc, c :: t =>
    if seps.contains c then
      (acc.dropWhile isPySpace).reverse :: pySplitSepAux seps true [] t
    else if skipWs && isPySpace c then pySplitSepAux seps true acc t
    else pySplitSepAux seps false (c :: acc) t

/-- Python `re.split` on a separator class surrounded by optional whitespace,
as used by `format_duration` (utils.py lines 93 and 104). -/
def pySplitSep (seps : List Char) (s : Str) : List Str := pySplitSepAux seps false [] s

/-- Lowercase month names recognized by the month-uppercasing substitution in
`format_duration` (utils.py lines 97-98). -/
def monthNamesLower : List Str :=
  [str "jan", str "feb", str "mar", str "apr", str "may", str "jun",
   str "jul", str "aug", str "sep", str "oct", str "nov", str "dec"]

/-- Fuel-indexed body of `monthUpper`; at most one alternative of the month
alternation matches at a given position, so the substitution is a plain scan
replacing each case-insensitive month-name occurrence by its uppercase form. -/
def monthUpperSub : Nat → Str → Str
  | 0, s => s
  | _ + 1, [] => []
  | n + 1, c :: t =>
    let three := (c :: t).take 3
    if monthNamesLower.contains (toLowerStr three) then
      toUpperStr three ++ monthUpperSub n (t.drop 2)
    else c :: monthUpperSub n t

/-- Embedding of the `re.sub` on utils.py lines 97-98: uppercase every
case-insensitive month-name occurrence. -/
def monthUpper (s : Str) : Str := monthUpperSub s.length s

/-- Matcher for the regex on utils.py line 100 (three uppercase letters, an
optional '-', four digits) anchored at the start of the input; returns the two
groups and the rest of the input.  If the optional '-' is consumed but the
digits fail, the retry without it would need a digit where the '-' stands, so
it fails too. -/
def matchAbbrAt (s : Str) : Option (Str × Str × Str) :=
  let a := s.take 3
  if a.length = 3 && a.all isUpperCh then
    match s.drop 3 with
    | '-' :: r =>
      let y := r.take 4
      if y.length = 4 && y.all isDigitCh then some (a, y, r.drop 4) else none
    | r =>
      let y := r.take 4
      if y.length = 4 && y.all isDigitCh then some (a, y, r.drop 4) else none
  else none

/-- Fuel-indexed body of `spaceFix`. -/
def spaceFixSub : Nat → Str → Str
  | 0, s => s
  | _ + 1, [] => []
  | n + 1, c :: t =>
    match matchAbbrAt (c :: t) with
    | some (a, y, rest) => a ++ ' ' :: (y ++ spaceFixSub n rest)
    | none => c :: spaceFixSub n t

/-- Embedding of the `re.sub` on utils.py line 100: rewrite an uppercase
month abbreviation, optional '-', year into abbreviation, space, year. -/
def spaceFix (s : Str) : Str := spaceFixSub s.length s

/-- Embedding of `format_duration` (utils.py lines 85-117): if the string
contains "- Present", canonicalize the start part and append " to Present";
otherwise split on dashes and handle two parts, one part (first experience
only), or pass the input through unchanged.  The `if parts:` on line 94 is
modelled faithfully: the split never returns an empty list, but if it did,
control would continue to the general path. -/
def format_duration (duration : Str) (is_first_experience : Bool) : Str :=
  if duration = [] then []
  else if (containsSub (str " - Present") duration
            || containsSub (str "- Present") duration)
      && decide (pySplitSep ['-'] duration ≠ []) then
    spaceFix (monthUpper (pyStrip ((pySplitSep ['-'] duration).headD []))) ++
      str " to Present"
  else
    match pySplitSep ['-', '–', '—'] duration with
    | [a, b] => format_date (pyStrip a) ++ str " to " ++ format_date (pyStrip b)
    | [a] =>
      if is_first_experience then
        let start := format_date (pyStrip a)
        if start ≠ [] && start ≠ str "Present" then start ++ str " to Present"
        else start
      else duration
    | _ => duration

theorem all_tail {p : Char → Bool} {c : Char} {t : Str} (h : (c :: t).all p = true) :
    t.all p = true := by
  rw [List.all_cons, Bool.and_eq_true] at h
  exact h.2

theorem all_head {p : Char → Bool} {c : Char} {t : Str} (h : (c :: t).all p = true) :
    p c = true := by
  rw [List.all_cons, Bool.and_eq_true] at h
  exact h.1

theorem pySplitSepAux_ne_nil (seps : List Char) (s : Str) :
    ∀ (b : Bool) (acc : Str), pySplitSepAux seps b acc s ≠ [] := by
  induction s with
  | nil => intro b acc; simp [pySplitSepAux]
  | cons c t ih =>
    intro b acc
    rw [pySplitSepAux]
    split
    · simp
    · split
      · exact ih _ _
      · exact ih _ _

theorem pySplitSep_ne_nil (seps : List Char) (s : Str) : pySplitSep seps s ≠ [] :=
  pySplitSepAux_ne_nil seps s false []

theorem containsSub_cons_of (pat s : Str) (c : Char)
    (h : containsSub pat s = true) : containsSub pat (c :: s) = true := by
  rw [containsSub]
  simp [h]

theorem containsSub_space_present (s : Str)
    (h : containsSub (str " - Present") s = true) :
    containsSub (str "- Present") s = true := by
  induction s with
  | nil => simp [containsSub, str, List.isPrefixOf] at h
  | cons c t ih =>
    rw [containsSub, Bool.or_eq_true] at h
    rcases h with h | h
    · have hc : c = ' ' ∧ (str "- Present").isPrefixOf t = true := by
        cases t with
        | nil => simp [str, List.isPrefixOf] at h
        | cons d u =>
          rw [show str " - Present" = ' ' :: str "- Present" from rfl] at h
          rw [List.isPrefixOf] at h
          simp only [Bool.and_eq_true, beq_iff_eq] at h
          exact ⟨h.1.symm, h.2⟩
      apply containsSub_cons_of
      cases t with
      | nil => simp [List.isPrefixOf, str] at hc
      | cons d u => rw [containsSub, hc.2]; simp
    · exact containsSub_cons_of _ _ _ (ih h)

theorem containsSub_present_nil : containsSub (str "- Present") [] = false := by decide

theorem containsSub_space_present_false (s : Str)
    (h : containsSub (str "- Present") s = false) :
    containsSub (str " - Present") s = false := by
  cases hc : containsSub (str " - Present") s
  · rfl
  · rw [containsSub_space_present s hc] at h
    exact absurd h (by simp)

/-- C6 (amended): `format_duration` returns the month-canonicalized start
part plus " to Present" when the input contains "- Present"; otherwise, with
exactly two dash-separated parts it returns the two formatted dates joined by
" to "; with one part and `is_first_experience` set it appends " to Present"
unless the formatted value is empty or already "Present", in which case that
value is returned as is; otherwise the input is returned unchanged. -/
theorem format_duration_cases (s : Str) (first : Bool) :
    (containsSub (str "- Present") s = true →
      format_duration s first =
        spaceFix (monthUpper (pyStrip ((pySplitSep ['-'] s).headD []))) ++
          str " to Present") ∧
    (containsSub (str "- Present") s = false →
      ∀ a b : Str, pySplitSep ['-', '–', '—'] s = [a, b] →
        format_duration s first =
          format_date (pyStrip a) ++ str " to " ++ format_date (pyStrip b)) ∧
    (containsSub (str "- Present") s = false → first = true →
      ∀ a : Str, pySplitSep ['-', '–', '—'] s = [a] →
        format_duration s first =
          (if format_date (pyStrip a) = [] ∨ format_date (pyStrip a) = str "Present"
           then format_date (pyStrip a)
           else format_date (pyStrip a) ++ str " to Present")) ∧
    (containsSub (str "- Present") s = false → first = false →
      ∀ a : Str, pySplitSep ['-', '–', '—'] s = [a] →
        format_duration s first = s) ∧
    (containsSub (str "- Present") s = false →
      3 ≤ (pySplitSep ['-', '–', '—'] s).length →
      format_duration s first = s) := by
  have hnil : pySplitSep ['-', '–', '—'] ([] : Str) = [[]] := by decide
  refine ⟨?_, ?_, ?_, ?_, ?_⟩
  · intro h
    have hne : s ≠ [] := by
      intro he; rw [he, containsSub_present_nil] at h; exact Bool.false_ne_true h
    rw [format_duration, if_neg hne,
      if_pos (by
        rw [h, decide_eq_true (pySplitSep_ne_nil ['-'] s)]
        simp)]
  · intro h a b hsplit
    have hne : s ≠ [] := by
      intro he; rw [he, hnil] at hsplit; simp at hsplit
    rw [format_duration, if_neg hne,
      if_neg (by rw [h, containsSub_space_present_false s h]; simp), hsplit]
  · intro h hf a hsplit
    subst hf
    by_cases hs : s = []
    · subst hs
      rw [hnil] at hsplit
      simp only [List.cons.injEq] at hsplit
      rw [← hsplit.1]
      decide
    · rw [format_duration, if_neg hs,
        if_neg (by rw [h, containsSub_space_present_false s h]; simp), hsplit]
      by_cases hc : format_date (pyStrip a) = [] ∨ format_date (pyStrip a) = str "Present"
      · rw [if_pos hc]
        rcases hc with hc | hc <;> simp [hc]
      · rw [if_neg hc]
        push_neg at hc
        simp [hc.1, hc.2]
  · intro h hf a hsplit
    subst hf
    by_cases hs : s = []
    · subst hs; decide
    · rw [format_duration, if_neg hs,
        if_neg (by rw [h, containsSub_space_present_false s h]; simp), hsplit]
      simp
  · intro h hlen
    have hne : s ≠ [] := by
      intro he; rw [he, hnil] at hlen; simp at hlen
    rw [format_duration, if_neg hne,
      if_neg (by rw [h, containsSub_space_present_false s h]; simp)]
    rcases hl : pySplitSep ['-', '–', '—'] s with _ | ⟨a, _ | ⟨b, _ | ⟨c, rest⟩⟩⟩
    · rfl
    · rw [hl] at hlen; simp at hlen
    · rw [hl] at hlen; simp at hlen
    · rfl

/-- C6 counterexample: on the one-part input " " with
`is_first_experience = True` the formatted start is empty and the function
returns "", not the claimed formatted-start ++ " to Present". -/
theorem format_duration_claim_counterexample :
    format_duration (str " ") true = [] ∧
    pySplitSep ['-', '–', '—'] (str " ") = [str " "] ∧
    format_date (pyStrip (str " ")) ++ str " to Present" = str " to Present" ∧
    format_duration (str " ") true ≠
      format_date (pyStrip (str " ")) ++ str " to Present" := by decide

/-- Witness for `format_duration_cases` at concrete inputs. -/
theorem format_duration_cases_witness :
    format_duration (str "Sep-2015 - Present") false = str "SEP to Present" ∧
    format_duration (str "Jan 2020 - Dec 2023") false = str "JAN 2020 to DEC 2023" ∧
    format_duration (str "2019") true = str "2019 to Present" ∧
    format_duration (str "a - b - c") false = str "a - b - c" ∧
    format_duration (str "x") false = str "x" := by
  refine ⟨?_, ?_, ?_, ?_, ?_⟩
  · rw [(format_duration_cases (str "Sep-2015 - Present") false).1 (by decide)]
    decide
  · rw [(format_duration_cases (str "Jan 2020 - Dec 2023") false).2.1 (by decide)
      (str "Jan 2020") (str "Dec 2023") (by decide)]
    decide
  · rw [(format_duration_cases (str "2019") true).2.2.1 (by decide) rfl
      (str "2019") (by decide)]
    decide
  · exact (format_duration_cases (str "a - b - c") false).2.2.2.2 (by decide) (by decide)
  · exact (format_duration_cases (str "x") false).2.2.2.1 (by decide) rfl
      (str "x") (by decide)

theorem isWordCh_of_digit {c : Char} (h : isDigitCh c = true) : isWordCh c = true := by
  simp only [isDigitCh, decide_eq_true_eq] at h
  simp only [isWordCh, isAlphaCh, isLowerCh, isUpperCh, isDigitCh, Bool.or_eq_true,
    decide_eq_true_eq]
  omega

theorem not_word_of_space {c : Char} (h : isPySpace c = true) : isWordCh c = false := by
  simp only [isPySpace, decide_eq_true_eq] at h
  simp only [isWordCh, isAlphaCh, isLowerCh, isUpperCh, isDigitCh, Bool.or_eq_false_iff,
    decide_eq_false_iff_not]
  omega

theorem not_space_of_digit {c : Char} (h : isDigitCh c = true) : isPySpace c = false := by
  simp only [isDigitCh, decide_eq_true_eq] at h
  simp only [isPySpace, decide_eq_false_iff_not]
  omega

theorem all_word_of_all_digit {l : Str} (h : l.all isDigitCh = true) :
    l.all isWordCh = true := by
  rw [List.all_eq_true] at h ⊢
  exact fun c hc => isWordCh_of_digit (h c hc)

theorem searchWith_cons_none (m : Str → Option (Str × Str)) (c : Char) (t : Str)
    (h : m (c :: t) = none) : searchWith m (c :: t) = searchWith m t := by
  rw [searchWith, h]

theorem searchWith_cons_some (m : Str → Option (Str × Str)) (c : Char) (t : Str)
    (r : Str × Str) (h : m (c :: t) = some r) : searchWith m (c :: t) = some r := by
  rw [searchWith, h]

theorem matchP1At_pos (w : Str) (sep : Char) (y rest : Str)
    (hw : w.all isWordCh = true) (hw3 : 3 ≤ w.length)
    (hsep : sep = '-' ∨ sep = ' ' ∨ sep = '/')
    (hy : y.all isDigitCh = true) (hy4 : y.length = 4) :
    matchP1At (w ++ sep :: (y ++ rest)) = some (w, y) := by
  have hsw : isWordCh sep = false := by
    rcases hsep with h | h | h <;> subst h <;> decide
  have htw : (w ++ sep :: (y ++ rest)).takeWhile isWordCh = w :=
    takeWhile_append_all _ _ _ _ (fun a ha => (List.all_eq_true.mp hw) a ha) hsw
  have hdr : (w ++ sep :: (y ++ rest)).drop w.length = sep :: (y ++ rest) :=
    List.drop_left w _
  have htk : (y ++ rest).take 4 = y := by
    rw [← hy4]; exact List.take_left y rest
  simp only [matchP1At, htw, if_pos hw3, hdr, htk, hy4, hy]
  rcases hsep with h | h | h <;> subst h <;> simp

theorem matchP1At_allWord (s : Str) (h : s.all isWordCh = true) :
    matchP1At s = none := by
  have htw : s.takeWhile isWordCh = s :=
    takeWhile_all _ _ (fun a ha => (List.all_eq_true.mp h) a ha)
  simp only [matchP1At, htw, List.drop_length]
  split <;> rfl

theorem searchP1_none_allWord (s : Str) (h : s.all isWordCh = true) :
    searchP1 s = none := by
  induction s with
  | nil => rfl
  | cons c t ih =>
    rw [searchP1, searchWith_cons_none _ _ _ (matchP1At_allWord _ h)]
    exact ih (all_tail h)

theorem matchP1At_run_short (s : Str) (h : (s.takeWhile isWordCh).length < 3) :
    matchP1At s = none := by
  simp only [matchP1At, if_neg (by omega : ¬ 3 ≤ (s.takeWhile isWordCh).length)]

theorem searchP1_none_spaceTail (sp y : Str) (hsp : sp.all isPySpace = true)
    (hy : y.all isWordCh = true) : searchP1 (sp ++ y) = none := by
  induction sp with
  | nil => rw [List.nil_append]; exact searchP1_none_allWord y hy
  | cons e sp2 ih =>
    rw [List.cons_append, searchP1,
      searchWith_cons_none _ _ _ (matchP1At_run_short _ (by
        rw [List.takeWhile_cons, not_word_of_space (all_head hsp)]
        simp))]
    exact ih (all_tail hsp)

theorem searchP1_none_numeric (m : Str) (sep : Char) (y : Str)
    (hm : m.all isDigitCh = true) (hm2 : m.length ≤ 2)
    (hsep : sep = '/' ∨ sep = '-') (hy : y.all isWordCh = true) :
    searchP1 (m ++ sep :: y) = none := by
  have hsw : isWordCh sep = false := by
    rcases hsep with h | h <;> subst h <;> decide
  induction m with
  | nil =>
    rw [List.nil_append, searchP1,
      searchWith_cons_none _ _ _ (matchP1At_run_short _ (by
        rw [List.takeWhile_cons, hsw]
        simp))]
    exact searchP1_none_allWord y hy
  | cons c m2 ih =>
    have hrun : ((c :: m2) ++ sep :: y).takeWhile isWordCh = c :: m2 :=
      takeWhile_append_all _ _ _ _
        (fun a ha => isWordCh_of_digit ((List.all_eq_true.mp hm) a ha)) hsw
    rw [List.cons_append, searchP1,
      searchWith_cons_none _ _ _ (matchP1At_run_short _ (by
        rw [show (c :: (m2 ++ sep :: y)).takeWhile isWordCh = c :: m2 from hrun]
        simp only [List.length_cons] at hm2 ⊢
        omega))]
    exact ih (all_tail hm) (by simpa using Nat.le_of_succ_le hm2)

theorem not_digit_of_space {c : Char} (h : isPySpace c = true) : isDigitCh c = false := by
  simp only [isPySpace, decide_eq_true_eq] at h
  simp only [isDigitCh, decide_eq_false_iff_not]
  omega

theorem searchP1_none_wordSpaceDigits (w sp y : Str)
    (hw : w.all isWordCh = true) (hsp : sp.all isPySpace = true) (hspne : sp ≠ [])
    (hy : y.all isWordCh = true) (hcond : sp = [' '] → w.length < 3) :
    searchP1 (w ++ (sp ++ y)) = none := by
  induction w with
  | nil => rw [List.nil_append]; exact searchP1_none_spaceTail sp y hsp hy
  | cons c w2 ih =>
    rcases sp with _ | ⟨s0, sp1⟩
    · exact absurd rfl hspne
    have hs0 : isPySpace s0 = true := all_head hsp
    have hmatch : matchP1At (c :: (w2 ++ (s0 :: sp1 ++ y))) = none := by
      have hrun : (c :: (w2 ++ (s0 :: sp1 ++ y))).takeWhile isWordCh = c :: w2 := by
        have := takeWhile_append_all isWordCh (c :: w2) s0 (sp1 ++ y)
          (fun a ha => (List.all_eq_true.mp hw) a ha) (not_word_of_space hs0)
        simp only [List.cons_append] at this
        exact this
      by_cases h3 : 3 ≤ (c :: w2).length
      · have hdr : (c :: (w2 ++ (s0 :: sp1 ++ y))).drop (c :: w2).length =
            s0 :: (sp1 ++ y) := by
          have := List.drop_left (c :: w2) (s0 :: (sp1 ++ y))
          simp only [List.cons_append] at this
          exact this
        simp only [matchP1At, hrun, if_pos h3, hdr]
        by_cases hcl : (s0 = '-' || s0 = ' ' || s0 = '/') = true
        · have hsp' : s0 = ' ' := by
            rcases (by simpa using hcl : (s0 = '-' ∨ s0 = ' ') ∨ s0 = '/') with (h | h) | h
            · rw [h] at hs0; exact absurd hs0 (by decide)
            · exact h
            · rw [h] at hs0; exact absurd hs0 (by decide)
          subst hsp'
          rcases sp1 with _ | ⟨d, sp2⟩
          · exact absurd (hcond rfl) (by simp only [List.length_cons] at h3 ⊢; omega)
          · have hd : isDigitCh d = false := not_digit_of_space (all_head (all_tail hsp))
            rw [if_pos hcl]
            simp [List.take_succ_cons, hd]
        · rw [Bool.not_eq_true] at hcl
          rw [hcl]
          simp
      · exact matchP1At_run_short _ (by rw [hrun]; omega)
    rw [List.cons_append, searchP1, searchWith_cons_none _ _ _ hmatch]
    exact ih (all_tail hw) (fun he => by
      have h2 := hcond he
      simp only [List.length_cons] at h2
      omega)

/-- Character class of inputs on which the numeric-month pattern can never
match: word characters, whitespace, and commas (no '/' or '-'). -/
def noSepCh (c : Char) : Bool := isWordCh c || isPySpace c || decide (c = ',')

theorem noSepCh_not_sep {c : Char} (h : noSepCh c = true) :
    (c = '/' || c = '-') = false := by
  cases hb : (c = '/' || c = '-')
  · rfl
  · rcases (by simpa using hb : c = '/' ∨ c = '-') with h2 | h2 <;>
      rw [h2] at h <;> exact absurd h (by decide)

theorem sepDigits4_none (r : Str) (h : r.all noSepCh = true) : sepDigits4 r = none := by
  cases r with
  | nil => rfl
  | cons sep r2 =>
    have := noSepCh_not_sep (all_head h)
    simp only [sepDigits4]
    rw [show (sep = '/' || sep = '-') = false from this]
    simp

theorem matchP2At_none (s : Str) (h : s.all noSepCh = true) : matchP2At s = none := by
  cases s with
  | nil => rfl
  | cons c0 rest0 =>
    cases rest0 with
    | nil => simp only [matchP2At.eq_def]; split <;> rfl
    | cons c1 rest1 =>
      have h1 : sepDigits4 rest1 = none := sepDigits4_none _ (all_tail (all_tail h))
      have h0 : sepDigits4 (c1 :: rest1) = none := sepDigits4_none _ (all_tail h)
      simp only [matchP2At.eq_def, h0, h1]
      split <;> [skip; rfl]
      split <;> rfl

theorem searchP2_none (s : Str) (h : s.all noSepCh = true) : searchP2 s = none := by
  induction s with
  | nil => rfl
  | cons c t ih =>
    rw [searchP2, searchWith_cons_none _ _ _ (matchP2At_none _ h)]
    exact ih (all_tail h)

theorem matchP2At_pos (m : Str) (sep : Char) (y : Str)
    (hm : m.all isDigitCh = true) (hm1 : 1 ≤ m.length) (hm2 : m.length ≤ 2)
    (hsep : sep = '/' ∨ sep = '-')
    (hy : y.all isDigitCh = true) (hy4 : y.length = 4) :
    matchP2At (m ++ sep :: y) = some (m, y) := by
  have hsd : isDigitCh sep = false := by
    rcases hsep with h | h <;> subst h <;> decide
  have hcl : (sep = '/' || sep = '-') = true := by
    rcases hsep with h | h <;> subst h <;> simp
  have hsd4 : sepDigits4 (sep :: y) = some y := by
    simp only [sepDigits4, hcl, if_pos rfl]
    rw [show y.take 4 = y from by rw [← hy4]; exact List.take_length y]
    simp [hy, hy4]
  rcases m with _ | ⟨c0, _ | ⟨c1, _ | ⟨c2, m3⟩⟩⟩
  · simp at hm1
  · rw [List.cons_append, List.nil_append, matchP2At, if_pos (all_head hm), hsd, hsd4]
    simp
  · rw [List.cons_append, List.cons_append, List.nil_append, matchP2At,
      if_pos (all_head hm), if_pos (all_head (all_tail hm)), hsd4]
  · simp only [List.length_cons] at hm2; omega

theorem matchP3At_pos (w sp y : Str)
    (hw : w.all isWordCh = true) (hwne : w ≠ [])
    (hsp : sp.all isPySpace = true) (hspne : sp ≠ [])
    (hy : y.all isDigitCh = true) (hy4 : y.length = 4) :
    matchP3At (w ++ (sp ++ y)) = some (w, y) := by
  rcases sp with _ | ⟨s0, sp1⟩
  · exact absurd rfl hspne
  rcases y with _ | ⟨y0, y1⟩
  · simp at hy4
  have hrun : (w ++ (s0 :: sp1 ++ y0 :: y1)).takeWhile isWordCh = w :=
    takeWhile_append_all _ _ _ _
      (fun a ha => (List.all_eq_true.mp hw) a ha) (not_word_of_space (all_head hsp))
  have hdr : (w ++ (s0 :: sp1 ++ y0 :: y1)).drop w.length = s0 :: sp1 ++ y0 :: y1 :=
    List.drop_left w _
  have hspr : (s0 :: sp1 ++ y0 :: y1).takeWhile isPySpace = s0 :: sp1 := by
    have := takeWhile_append_all isPySpace (s0 :: sp1) y0 y1
      (fun a ha => (List.all_eq_true.mp hsp) a ha) (not_space_of_digit (all_head hy))
    simp only [List.cons_append] at this ⊢
    exact this
  have hdr2 : (s0 :: sp1 ++ y0 :: y1).drop (s0 :: sp1).length = y0 :: y1 :=
    List.drop_left (s0 :: sp1) _
  have htk : (y0 :: y1).take 4 = y0 :: y1 := by
    rw [← hy4]; exact List.take_length _
  simp only [matchP3At, hrun, hdr, hspr, hdr2, htk, hy, hy4]
  rw [if_pos (by simpa using hwne)]
  simp

theorem matchP3At_nil_run (s : Str) (h : s.takeWhile isWordCh = []) :
    matchP3At s = none := by
  simp [matchP3At, h]

theorem matchP3At_nil_sprun (s : Str)
    (h : (s.drop (s.takeWhile isWordCh).length).takeWhile isPySpace = []) :
    matchP3At s = none := by
  simp [matchP3At, h]

theorem searchP3_none_allWord (s : Str) (h : s.all isWordCh = true) :
    searchP3 s = none := by
  induction s with
  | nil => rfl
  | cons c t ih =>
    have htw : (c :: t).takeWhile isWordCh = c :: t :=
      takeWhile_all _ _ (fun a ha => (List.all_eq_true.mp h) a ha)
    rw [searchP3, searchWith_cons_none _ _ _ (matchP3At_nil_sprun _ (by
      rw [htw, List.drop_length]; rfl))]
    exact ih (all_tail h)

theorem searchP3_none_spaceTail (sp y : Str) (hsp : sp.all isPySpace = true)
    (hy : y.all isWordCh = true) : searchP3 (sp ++ y) = none := by
  induction sp with
  | nil => rw [List.nil_append]; exact searchP3_none_allWord y hy
  | cons e sp2 ih =>
    rw [List.cons_append, searchP3, searchWith_cons_none _ _ _ (matchP3At_nil_run _ (by
      rw [List.takeWhile_cons, not_word_of_space (all_head hsp)]
      simp))]
    exact ih (all_tail hsp)

theorem searchP3_none_comma (w sp y : Str)
    (hw : w.all isWordCh = true) (hsp : sp.all isPySpace = true)
    (hy : y.all isWordCh = true) :
    searchP3 (w ++ ',' :: (sp ++ y)) = none := by
  induction w with
  | nil =>
    rw [List.nil_append, searchP3, searchWith_cons_none _ _ _ (matchP3At_nil_run _ (by
      rw [List.takeWhile_cons]
      simp [isWordCh, isAlphaCh, isLowerCh, isUpperCh, isDigitCh]))]
    exact searchP3_none_spaceTail sp y hsp hy
  | cons c w2 ih =>
    have hrun : (c :: (w2 ++ ',' :: (sp ++ y))).takeWhile isWordCh = c :: w2 := by
      have := takeWhile_append_all isWordCh (c :: w2) ',' (sp ++ y)
        (fun a ha => (List.all_eq_true.mp hw) a ha) (by decide)
      simp only [List.cons_append] at this
      exact this
    rw [List.cons_append, searchP3, searchWith_cons_none _ _ _ (matchP3At_nil_sprun _ (by
      rw [hrun, show (c :: (w2 ++ ',' :: (sp ++ y))).drop (c :: w2).length =
        ',' :: (sp ++ y) from by
          have := List.drop_left (c :: w2) (',' :: (sp ++ y))
          simp only [List.cons_append] at this
          exact this]
      rw [List.takeWhile_cons]
      simp [isPySpace]))]
    exact ih (all_tail hw)

theorem searchP1_none_comma (w sp y : Str)
    (hw : w.all isWordCh = true) (hsp : sp.all isPySpace = true)
    (hy : y.all isWordCh = true) :
    searchP1 (w ++ ',' :: (sp ++ y)) = none := by
  induction w with
  | nil =>
    rw [List.nil_append, searchP1, searchWith_cons_none _ _ _ (matchP1At_run_short _ (by
      rw [List.takeWhile_cons]
      simp [isWordCh, isAlphaCh, isLowerCh, isUpperCh, isDigitCh]))]
    exact searchP1_none_spaceTail sp y hsp hy
  | cons c w2 ih =>
    have hrun : (c :: (w2 ++ ',' :: (sp ++ y))).takeWhile isWordCh = c :: w2 := by
      have := takeWhile_append_all isWordCh (c :: w2) ',' (sp ++ y)
        (fun a ha => (List.all_eq_true.mp hw) a ha) (by decide)
      simp only [List.cons_append] at this
      exact this
    have hmatch : matchP1At (c :: (w2 ++ ',' :: (sp ++ y))) = none := by
      by_cases h3 : 3 ≤ (c :: w2).length
      · have hdr : (c :: (w2 ++ ',' :: (sp ++ y))).drop (c :: w2).length =
            ',' :: (sp ++ y) := by
          have := List.drop_left (c :: w2) (',' :: (sp ++ y))
          simp only [List.cons_append] at this
          exact this
        simp only [matchP1At, hrun, if_pos h3, hdr]
        simp
      · exact matchP1At_run_short _ (by rw [hrun]; omega)
    rw [List.cons_append, searchP1, searchWith_cons_none _ _ _ hmatch]
    exact ih (all_tail hw)

theorem matchP4At_pos (w sp y : Str)
    (hw : w.all isWordCh = true) (hwne : w ≠ [])
    (hsp : sp.all isPySpace = true) (hspne : sp ≠ [])
    (hy : y.all isDigitCh = true) (hy4 : y.length = 4) :
    matchP4At (w ++ ',' :: (sp ++ y)) = some (w, y) := by
  rcases sp with _ | ⟨s0, sp1⟩
  · exact absurd rfl hspne
  rcases y with _ | ⟨y0, y1⟩
  · simp at hy4
  have hrun : (w ++ ',' :: (s0 :: sp1 ++ y0 :: y1)).takeWhile isWordCh = w :=
    takeWhile_append_all _ _ _ _
      (fun a ha => (List.all_eq_true.mp hw) a ha) (by decide)
  have hdr : (w ++ ',' :: (s0 :: sp1 ++ y0 :: y1)).drop w.length =
      ',' :: (s0 :: sp1 ++ y0 :: y1) :=
    List.drop_left w _
  have hspr : (s0 :: sp1 ++ y0 :: y1).takeWhile isPySpace = s0 :: sp1 := by
    have := takeWhile_append_all isPySpace (s0 :: sp1) y0 y1
      (fun a ha => (List.all_eq_true.mp hsp) a ha) (not_space_of_digit (all_head hy))
    simp only [List.cons_append] at this ⊢
    exact this
  have hdr2 : (s0 :: sp1 ++ y0 :: y1).drop (s0 :: sp1).length = y0 :: y1 :=
    List.drop_left (s0 :: sp1) _
  have htk : (y0 :: y1).take 4 = y0 :: y1 := by
    rw [← hy4]; exact List.take_length _
  simp only [matchP4At, hrun, hdr, hspr, hdr2, htk, hy, hy4]
  rw [if_pos (by simpa using hwne)]
  simp

theorem take4_digits_false {s z : Str} (hnd : s.all (fun c => !isDigitCh c) = true)
    (hz : ∀ c ∈ z, c ∈ s) :
    ((z.take 4).length = 4 && (z.take 4).all isDigitCh) = false := by
  cases hzt : z.take 4 with
  | nil => simp
  | cons c0 zz =>
    have hc0 : c0 ∈ s := hz c0 (List.mem_of_mem_take (by rw [hzt]; exact List.mem_cons_self c0 zz))
    have : isDigitCh c0 = false := by
      have := (List.all_eq_true.mp hnd) c0 hc0
      simpa using this
    simp [this]

theorem matchP1At_none_noDigit (s : Str)
    (h : s.all (fun c => !isDigitCh c) = true) : matchP1At s = none := by
  by_cases h3 : 3 ≤ (s.takeWhile isWordCh).length
  · cases hd : s.drop (s.takeWhile isWordCh).length with
    | nil => simp [matchP1At, if_pos h3, hd]
    | cons sep rest =>
      have hmem : ∀ c ∈ rest, c ∈ s := fun c hc =>
        List.mem_of_mem_drop (by rw [hd]; exact List.mem_cons_of_mem sep hc)
      simp only [matchP1At, if_pos h3, hd]
      split
      · rw [take4_digits_false h hmem]
        simp
      · rfl
  · exact matchP1At_run_short _ (by omega)

theorem searchP1_none_noDigit (s : Str)
    (h : s.all (fun c => !isDigitCh c) = true) : searchP1 s = none := by
  induction s with
  | nil => rfl
  | cons c t ih =>
    rw [searchP1, searchWith_cons_none _ _ _ (matchP1At_none_noDigit _ h)]
    exact ih (all_tail h)

theorem sepDigits4_none_noDigit {s : Str} (r : Str)
    (h : s.all (fun c => !isDigitCh c) = true) (hr : ∀ c ∈ r, c ∈ s) :
    sepDigits4 r = none := by
  cases r with
  | nil => rfl
  | cons sep r2 =>
    have hmem : ∀ c ∈ r2, c ∈ s := fun c hc => hr c (List.mem_cons_of_mem sep hc)
    simp only [sepDigits4]
    split
    · rw [take4_digits_false h hmem]
      simp
    · rfl

theorem matchP2At_none_noDigit (s : Str)
    (h : s.all (fun c => !isDigitCh c) = true) : matchP2At s = none := by
  cases s with
  | nil => rfl
  | cons c0 rest0 =>
    have hc0 : isDigitCh c0 = false := by
      have := (List.all_eq_true.mp h) c0 (List.mem_cons_self c0 rest0)
      simpa using this
    simp only [matchP2At.eq_def, hc0]
    split <;> simp_all

theorem searchP2_none_noDigit (s : Str)
    (h : s.all (fun c => !isDigitCh c) = true) : searchP2 s = none := by
  induction s with
  | nil => rfl
  | cons c t ih =>
    rw [searchP2, searchWith_cons_none _ _ _ (matchP2At_none_noDigit _ h)]
    exact ih (all_tail h)

theorem matchP3At_none_noDigit (s : Str)
    (h : s.all (fun c => !isDigitCh c) = true) : matchP3At s = none := by
  have hmem : ∀ c ∈ ((s.drop (s.takeWhile isWordCh).length).drop
      ((s.drop (s.takeWhile isWordCh).length).takeWhile isPySpace).length), c ∈ s :=
    fun c hc => List.mem_of_mem_drop (List.mem_of_mem_drop hc)
  simp only [matchP3At]
  split
  · split
    · rw [take4_digits_false h hmem]
      simp
    · rfl
  · rfl

theorem searchP3_none_noDigit (s : Str)
    (h : s.all (fun c => !isDigitCh c) = true) : searchP3 s = none := by
  induction s with
  | nil => rfl
  | cons c t ih =>
    rw [searchP3, searchWith_cons_none _ _ _ (matchP3At_none_noDigit _ h)]
    exact ih (all_tail h)

theorem matchP4At_none_noDigit (s : Str)
    (h : s.all (fun c => !isDigitCh c) = true) : matchP4At s = none := by
  have hr1 : ∀ c ∈ s.drop (s.takeWhile isWordCh).length, c ∈ s :=
    fun c hc => List.mem_of_mem_drop hc
  have hr2 : ∀ c ∈ (match s.drop (s.takeWhile isWordCh).length with
      | ',' :: r => r
      | r => r), c ∈ s := by
    intro c hc
    rcases hd : s.drop (s.takeWhile isWordCh).length with _ | ⟨x, r⟩
    · rw [hd] at hc
      revert hc
      simp
    · rw [hd] at hc
      by_cases hx : x = ','
      · subst hx
        simp only at hc
        exact hr1 c (by rw [hd]; exact List.mem_cons_of_mem _ hc)
      · have : (match x :: r with | ',' :: r => r | r => r) = x :: r := by
          cases x
          simp_all
        rw [this] at hc
        exact hr1 c (by rw [hd]; exact hc)
  simp only [matchP4At]
  split
  · split
    · rw [take4_digits_false h (fun c hc => hr2 c (List.mem_of_mem_drop hc))]
      simp
    · rfl
  · rfl

theorem searchP4_none_noDigit (s : Str)
    (h : s.all (fun c => !isDigitCh c) = true) : searchP4 s = none := by
  induction s with
  | nil => rfl
  | cons c t ih =>
    rw [searchP4, searchWith_cons_none _ _ _ (matchP4At_none_noDigit _ h)]
    exact ih (all_tail h)

/-- C7 (amended): `format_date` recognizes, in priority order: (1) an exact
case-insensitive synonym of "present", returning "Present"; (2) a run of at
least three word characters (letters, digits or underscore — not only
alphabetic), a separator '-', ' ' or '/', and four digits, returning the
first three characters upper-cased, a space, and the year; (3) a one- or
two-digit month, '/' or '-', and four digits, returning the month
abbreviation and the year; (4) a word-character run then whitespace (with an
optional comma before it) and four digits, as in (2); input without digits
that is not a synonym is returned unchanged. -/
theorem format_date_spec :
    (∀ s : Str, presentSynonyms.contains (toLowerStr s) = true →
      format_date s = str "Present") ∧
    (∀ (w : Str) (sep : Char) (y rest : Str),
      w.all isWordCh = true → 3 ≤ w.length →
      (sep = '-' ∨ sep = ' ' ∨ sep = '/') →
      y.all isDigitCh = true → y.length = 4 →
      presentSynonyms.contains (toLowerStr (w ++ sep :: (y ++ rest))) = false →
      format_date (w ++ sep :: (y ++ rest)) = (toUpperStr w).take 3 ++ ' ' :: y) ∧
    (∀ (m : Str) (sep : Char) (y : Str),
      m.all isDigitCh = true → 1 ≤ m.length → m.length ≤ 2 →
      (sep = '/' ∨ sep = '-') →
      y.all isDigitCh = true → y.length = 4 →
      presentSynonyms.contains (toLowerStr (m ++ sep :: y)) = false →
      format_date (m ++ sep :: y) = get_month_abbr (zfill 2 m) ++ ' ' :: y) ∧
    (∀ w sp y : Str,
      w.all isWordCh = true → w ≠ [] →
      sp.all isPySpace = true → sp ≠ [] →
      y.all isDigitCh = true → y.length = 4 →
      presentSynonyms.contains (toLowerStr (w ++ (sp ++ y))) = false →
      format_date (w ++ (sp ++ y)) = toUpperStr (w.take 3) ++ ' ' :: y) ∧
    (∀ w sp y : Str,
      w.all isWordCh = true → w ≠ [] →
      sp.all isPySpace = true → sp ≠ [] →
      y.all isDigitCh = true → y.length = 4 →
      presentSynonyms.contains (toLowerStr (w ++ ',' :: (sp ++ y))) = false →
      format_date (w ++ ',' :: (sp ++ y)) = toUpperStr (w.take 3) ++ ' ' :: y) ∧
    (∀ s : Str, s.all (fun c => !isDigitCh c) = true →
      presentSynonyms.contains (toLowerStr s) = false →
      format_date s = s) ∧
    format_date (str "Sep-2015") = str "SEP 2015" ∧
    format_date (str "present") = str "Present" ∧
    format_date (str "till date") = str "Present" := by
  refine ⟨?_, ?_, ?_, ?_, ?_, ?_, by decide, by decide, by decide⟩
  · intro s hsyn
    have hne : s ≠ [] := by
      intro he
      rw [he] at hsyn
      exact absurd hsyn (by decide)
    rw [format_date, if_neg hne, if_pos hsyn]
  · intro w sep y rest hw hw3 hsep hy hy4 hsyn
    rcases w with _ | ⟨c, w2⟩
    · simp at hw3
    have hne : (c :: w2) ++ sep :: (y ++ rest) ≠ [] := by simp
    have hp1 : searchP1 ((c :: w2) ++ sep :: (y ++ rest)) = some (c :: w2, y) := by
      have hm := matchP1At_pos (c :: w2) sep y rest hw hw3 hsep hy hy4
      rw [List.cons_append] at hm ⊢
      exact searchWith_cons_some _ _ _ _ hm
    rw [format_date, if_neg hne, hsyn]
    simp only [Bool.false_eq_true, if_false, hp1]
  · intro m sep y hm hm1 hm2 hsep hy hy4 hsyn
    rcases m with _ | ⟨c, m2⟩
    · simp at hm1
    have hne : (c :: m2) ++ sep :: y ≠ [] := by simp
    have hp1 : searchP1 ((c :: m2) ++ sep :: y) = none :=
      searchP1_none_numeric _ sep y hm hm2 hsep (all_word_of_all_digit hy)
    have hp2 : searchP2 ((c :: m2) ++ sep :: y) = some (c :: m2, y) := by
      have hmm := matchP2At_pos (c :: m2) sep y hm hm1 hm2 hsep hy hy4
      rw [List.cons_append] at hmm ⊢
      exact searchWith_cons_some _ _ _ _ hmm
    rw [format_date, if_neg hne, hsyn]
    simp only [Bool.false_eq_true, if_false, hp1, hp2]
  · intro w sp y hw hwne hsp hspne hy hy4 hsyn
    rcases w with _ | ⟨c, w2⟩
    · exact absurd rfl hwne
    have hne : (c :: w2) ++ (sp ++ y) ≠ [] := by simp
    by_cases hA : 3 ≤ (c :: w2).length ∧ sp = [' ']
    · have hp1 : searchP1 ((c :: w2) ++ (sp ++ y)) = some (c :: w2, y) := by
        have hm := matchP1At_pos (c :: w2) ' ' y [] hw hA.1 (by simp) hy hy4
        rw [List.append_nil] at hm
        rw [hA.2]
        rw [List.cons_append] at hm ⊢
        exact searchWith_cons_some _ _ _ _ hm
      rw [format_date, if_neg hne, hsyn]
      simp only [Bool.false_eq_true, if_false, hp1]
      rw [toUpperStr, toUpperStr, List.map_take]
    · have hp1 : searchP1 ((c :: w2) ++ (sp ++ y)) = none :=
        searchP1_none_wordSpaceDigits (c :: w2) sp y hw hsp hspne
          (all_word_of_all_digit hy)
          (fun he => by
            by_contra hge
            exact hA ⟨by omega, he⟩)
      have hall : ((c :: w2) ++ (sp ++ y)).all noSepCh = true := by
        rw [List.all_append, List.all_append]
        have h1 : (c :: w2).all noSepCh = true := by
          rw [List.all_eq_true] at hw ⊢
          intro x hx
          simp [noSepCh, hw x hx]
        have h2 : sp.all noSepCh = true := by
          rw [List.all_eq_true] at hsp ⊢
          intro x hx
          simp [noSepCh, hsp x hx]
        have h3 : y.all noSepCh = true := by
          rw [List.all_eq_true] at hy ⊢
          intro x hx
          simp [noSepCh, isWordCh_of_digit (hy x hx)]
        simp [h1, h2, h3]
      have hp2 : searchP2 ((c :: w2) ++ (sp ++ y)) = none := searchP2_none _ hall
      have hp3 : searchP3 ((c :: w2) ++ (sp ++ y)) = some (c :: w2, y) := by
        have hm := matchP3At_pos (c :: w2) sp y hw (by simp) hsp hspne hy hy4
        rw [List.cons_append] at hm ⊢
        exact searchWith_cons_some _ _ _ _ hm
      rw [format_date, if_neg hne, hsyn]
      simp only [Bool.false_eq_true, if_false, hp1, hp2, hp3]
  · intro w sp y hw hwne hsp hspne hy hy4 hsyn
    rcases w with _ | ⟨c, w2⟩
    · exact absurd rfl hwne
    have hne : (c :: w2) ++ ',' :: (sp ++ y) ≠ [] := by simp
    have hyw := all_word_of_all_digit hy
    have hp1 : searchP1 ((c :: w2) ++ ',' :: (sp ++ y)) = none :=
      searchP1_none_comma (c :: w2) sp y hw hsp hyw
    have hall : ((c :: w2) ++ ',' :: (sp ++ y)).all noSepCh = true := by
      rw [List.all_eq_true]
      intro x hx
      simp only [List.mem_append, List.mem_cons] at hx
      rcases hx with hx | hx | hx
      · simp [noSepCh, (List.all_eq_true.mp hw) x (by simp [hx])]
      · subst hx; decide
      · rcases hx with hx | hx
        · simp [noSepCh, (List.all_eq_true.mp hsp) x hx]
        · simp [noSepCh, isWordCh_of_digit ((List.all_eq_true.mp hy) x hx)]
    have hp2 : searchP2 ((c :: w2) ++ ',' :: (sp ++ y)) = none := searchP2_none _ hall
    have hp3 : searchP3 ((c :: w2) ++ ',' :: (sp ++ y)) = none :=
      searchP3_none_comma (c :: w2) sp y hw hsp hyw
    have hp4 : searchP4 ((c :: w2) ++ ',' :: (sp ++ y)) = some (c :: w2, y) := by
      have hm := matchP4At_pos (c :: w2) sp y hw (by simp) hsp hspne hy hy4
      rw [List.cons_append] at hm ⊢
      exact searchWith_cons_some _ _ _ _ hm
    rw [format_date, if_neg hne, hsyn]
    simp only [Bool.false_eq_true, if_false, hp1, hp2, hp3, hp4]
  · intro s hnd hsyn
    by_cases hne : s = []
    · rw [hne]; rfl
    rw [format_date, if_neg hne, hsyn]
    simp only [Bool.false_eq_true, if_false, searchP1_none_noDigit s hnd,
      searchP2_none_noDigit s hnd, searchP3_none_noDigit s hnd,
      searchP4_none_noDigit s hnd]

/-- C7 counterexample: "1234-2015" has a non-alphabetic four-character word
before the separator; the code's `\w{3,}` matches it and produces "123 2015",
which is neither the unchanged input nor the numeric-month reading "34 2015"
that the claim (with alphabetic-only WORD) allows. -/
theorem format_date_claim_counterexample :
    format_date (str "1234-2015") = str "123 2015" ∧
    str "123 2015" ≠ str "1234-2015" ∧
    str "123 2015" ≠ str "34 2015" := by decide

/-- Witness for `format_date_spec` at concrete inputs. -/
theorem format_date_spec_witness :
    format_date (str "Mar-2015") = str "MAR 2015" ∧
    format_date (str "09/2015") = str "SEP 2015" ∧
    format_date (str "September 2015") = str "SEP 2015" ∧
    format_date (str "September, 2015") = str "SEP 2015" ∧
    format_date (str "hello") = str "hello" ∧
    format_date (str "Current") = str "Present" := by
  refine ⟨?_, ?_, ?_, ?_, ?_, ?_⟩
  · rw [show str "Mar-2015" = str "Mar" ++ '-' :: (str "2015" ++ []) from by decide]
    rw [format_date_spec.2.1 (str "Mar") '-' (str "2015") [] (by decide) (by decide)
      (Or.inl rfl) (by decide) (by decide) (by decide)]
    decide
  · rw [show str "09/2015" = str "09" ++ '/' :: str "2015" from by decide]
    rw [format_date_spec.2.2.1 (str "09") '/' (str "2015") (by decide) (by decide)
      (by decide) (Or.inl rfl) (by decide) (by decide) (by decide)]
    decide
  · rw [show str "September 2015" = str "September" ++ (str " " ++ str "2015") from by decide]
    rw [format_date_spec.2.2.2.1 (str "September") (str " ") (str "2015") (by decide)
      (by decide) (by decide) (by decide) (by decide) (by decide) (by decide)]
    decide
  · rw [show str "September, 2015" = str "September" ++ ',' :: (str " " ++ str "2015")
      from by decide]
    rw [format_date_spec.2.2.2.2.1 (str "September") (str " ") (str "2015") (by decide)
      (by decide) (by decide) (by decide) (by decide) (by decide) (by decide)]
    decide
  · exact format_date_spec.2.2.2.2.2.1 (str "hello") (by decide) (by decide)
  · exact format_date_spec.1 (str "Current") (by decide)

/-- Run of a docx paragraph: its text and bold flag.  The uniform typography
(Arial, 10pt, black, 1.5 line spacing) that utils.py applies to every run it
creates carries no information relevant to the claims and is not modelled. -/
structure Run where
  text : Str
  bold : Bool
  deriving DecidableEq, Inhabited

/-- Paragraph of a docx document: a list of runs. -/
structure Para where
  runs : List Run
  deriving DecidableEq, Inhabited

/-- Text of a paragraph, python-docx `paragraph.text`. -/
def Para.text (p : Para) : Str := (p.runs.map Run.text).flatten

/-- Table cell: a list of paragraphs. -/
structure Cell where
  paras : List Para
  deriving DecidableEq, Inhabited

/-- Table row: a list of cells. -/
structure Row where
  cells : List Cell
  deriving DecidableEq, Inhabited

/-- Table: a list of rows. -/
structure Table where
  rows : List Row
  deriving DecidableEq, Inhabited

/-- Document: the flat paragraph sequence and the tables, as exposed by
python-docx `doc.paragraphs` and `doc.tables`. -/
structure Doc where
  paragraphs : List Para
  tables : List Table
  deriving DecidableEq, Inhabited

/-- Experience entry of a validated record.  Responsibilities are strings
(`str(resp)` with the `None`-to-`""` coercion on utils.py lines 223-226 is
the identity on strings). -/
structure Experience where
  company : Str
  location : Str
  role : Str
  duration : Str
  responsibilities : List Str
  deriving DecidableEq, Inhabited

/-- Education entry of a validated record. -/
structure Education where
  institution : Str
  duration : Str
  degree : Str
  deriving DecidableEq, Inhabited

/-- Certification entry of a validated record. -/
structure Certification where
  name : Str
  year : Str
  provider : Str
  location : Str
  deriving DecidableEq, Inhabited

/-- Validated candidate record as consumed by `fill_template`; the
`d.get(..., "") or ""` accesses of utils.py are total on this shape, and the
`isinstance(..., list)` guards on education/certifications are satisfied. -/
structure Record where
  candidate_name : Str
  position : Str
  total_experience_years : Str
  phone : Str
  email : Str
  intro_paragraph : Str
  experiences : List Experience
  education : List Education
  certifications : List Certification
  technical_skills : List Str
  language_skills : List Str
  deriving DecidableEq, Inhabited

/-- Section-deletion sentinel (utils.py line 232). -/
def DELETE_EXPERIENCE : Str := str "<<<DELETE_EXPERIENCE>>>"

/-- Line-deletion sentinel (utils.py line 229). -/
def REMOVE_THIS_LINE : Str := str "<<<REMOVE_THIS_LINE>>>"

/-- Bold-span opening marker (utils.py line 209). -/
def BOLD_OPEN : Str := str "<<<BOLD>>>"

/-- Bold-span closing marker (utils.py line 209). -/
def BOLD_CLOSE : Str := str "<<<END_BOLD>>>"

/-- Decimal representation of a natural number, Python f-string `{i}`. -/
def natStr (n : Nat) : Str := (Nat.repr n).data

/-- Experience placeholder token `\x7b\x7bEXP<i>_<suffix>\x7d\x7d`. -/
def expTok (i : Nat) (suf : Str) : Str :=
  str "\x7b\x7bEXP" ++ (natStr i ++ ('_' :: (suf ++ str "\x7d\x7d")))

/-- Education placeholder token `\x7b\x7bEDU<i>_<suffix>\x7d\x7d`. -/
def eduTok (i : Nat) (suf : Str) : Str :=
  str "\x7b\x7bEDU" ++ (natStr i ++ ('_' :: (suf ++ str "\x7d\x7d")))

/-- Certification placeholder token `\x7b\x7bCERT<i>_<suffix>\x7d\x7d`. -/
def certTok (i : Nat) (suf : Str) : Str :=
  str "\x7b\x7bCERT" ++ (natStr i ++ ('_' :: (suf ++ str "\x7d\x7d")))

/-- Responsibility token suffix `RESP<j>`. -/
def respSuf (j : Nat) : Str := str "RESP" ++ natStr j

/-- Formatted technical-skills block (utils.py lines 294-298). -/
def tech_skills_text (d : Record) : Str :=
  if d.technical_skills ≠ [] then
    List.intercalate (str "\n") (d.technical_skills.map (fun sk => str "• " ++ sk))
  else []

/-- Formatted language-skills line (utils.py lines 300-304). -/
def langs_text (d : Record) : Str :=
  if d.language_skills ≠ [] then List.intercalate (str ", ") d.language_skills
  else str "English - Fluent"

/-- Basic replacement pairs (utils.py lines 186-193 and 307-308), in
insertion order. -/
def basic_repl (d : Record) : List (Str × Str) :=
  [(str "\x7b\x7bCANDIDATE_NAME\x7d\x7d", d.candidate_name),
   (str "\x7b\x7bPOSITION\x7d\x7d", d.position),
   (str "\x7b\x7bTOTAL_EXPERIENCE_YEARS\x7d\x7d", d.total_experience_years),
   (str "\x7b\x7bPHONE\x7d\x7d", d.phone),
   (str "\x7b\x7bEMAIL\x7d\x7d", d.email),
   (str "\x7b\x7bINTRO_PARAGRAPH\x7d\x7d", d.intro_paragraph),
   (str "\x7b\x7bTECHNICAL_SKILLS_LIST\x7d\x7d", tech_skills_text d),
   (str "\x7b\x7bLANGUAGE_SKILLS_LIST\x7d\x7d", langs_text d)]

/-- Whether slot `i` holds a data-bearing experience: `i` within the record's
length and both company and role non-empty (utils.py lines 201-205). -/
def has_exp_data (d : Record) (i : Nat) : Bool :=
  decide (i ≤ d.experiences.length) &&
    (decide ((d.experiences.getD (i - 1) default).company ≠ []) &&
     decide ((d.experiences.getD (i - 1) default).role ≠ []))

/-- The `experiences_with_data` set (utils.py line 196), collected over the
slot loop `for i in range(1, 21)`. -/
def experiences_with_data (d : Record) : List Nat :=
  (List.range' 1 20).filter (has_exp_data d)

/-- Replacement pairs for one experience slot (utils.py lines 200-245), in
insertion order. -/
def exp_slot_repl (d : Record) (i : Nat) : List (Str × Str) :=
  if i ≤ d.experiences.length then
    let exp := d.experiences.getD (i - 1) default
    if exp.company ≠ [] ∧ exp.role ≠ [] then
      (expTok i (str "COMPANY"), BOLD_OPEN ++ (exp.company ++ BOLD_CLOSE)) ::
      (expTok i (str "ROLE"), exp.role) ::
      (expTok i (str "DURATION"), exp.duration) ::
      (expTok i (str "LOCATION"),
        if pyStrip exp.location ≠ [] then exp.location
        else str "Location Not Specified") ::
      (List.range' 1 100).map (fun j =>
        (expTok i (respSuf j),
          if j ≤ exp.responsibilities.length then exp.responsibilities.getD (j - 1) []
          else REMOVE_THIS_LINE))
    else
      (expTok i (str "COMPANY"), DELETE_EXPERIENCE) ::
      (expTok i (str "ROLE"), DELETE_EXPERIENCE) ::
      (expTok i (str "DURATION"), DELETE_EXPERIENCE) ::
      (expTok i (str "LOCATION"), DELETE_EXPERIENCE) ::
      (List.range' 1 100).map (fun j => (expTok i (respSuf j), DELETE_EXPERIENCE))
  else
    (expTok i (str "COMPANY"), DELETE_EXPERIENCE) ::
    (expTok i (str "ROLE"), DELETE_EXPERIENCE) ::
    (expTok i (str "DURATION"), DELETE_EXPERIENCE) ::
    (expTok i (str "LOCATION"), DELETE_EXPERIENCE) ::
    (List.range' 1 100).map (fun j => (expTok i (respSuf j), DELETE_EXPERIENCE))

/-- The experiences replacement dict (utils.py lines 199-245) as an
association list in insertion order; its keys are pairwise distinct, so the
Python dict coincides with first-match lookup on this list. -/
def exp_repl (d : Record) : List (Str × Str) :=
  (List.range' 1 20).flatMap (exp_slot_repl d)

/-- Replacement pairs for one education slot (utils.py lines 253-266). -/
def edu_slot_repl (d : Record) (i : Nat) : List (Str × Str) :=
  if i ≤ d.education.length then
    let edu := d.education.getD (i - 1) default
    [(eduTok i (str "INSTITUTION"), edu.institution),
     (eduTok i (str "DURATION"),
       if pyStrip edu.duration ≠ [] then edu.duration else str "Dates Not Available"),
     (eduTok i (str "DEGREE"), edu.degree)]
  else
    [(eduTok i (str "INSTITUTION"), REMOVE_THIS_LINE),
     (eduTok i (str "DURATION"), REMOVE_THIS_LINE),
     (eduTok i (str "DEGREE"), REMOVE_THIS_LINE)]

/-- The education replacement dict (utils.py lines 248-266). -/
def edu_repl (d : Record) : List (Str × Str) :=
  (List.range' 1 5).flatMap (edu_slot_repl d)

/-- Replacement pairs for one certification slot (utils.py lines 274-290). -/
def cert_slot_repl (d : Record) (i : Nat) : List (Str × Str) :=
  if i ≤ d.certifications.length then
    let cert := d.certifications.getD (i - 1) default
    [(certTok i (str "NAME"), cert.name),
     (certTok i (str "YEAR"),
       if pyStrip cert.year ≠ [] then cert.year else str "Year Not Available"),
     (certTok i (str "PROVIDER"),
       if pyStrip cert.provider ≠ [] then cert.provider
       else str "Provider Not Specified"),
     (certTok i (str "LOCATION"), cert.location)]
  else
    [(certTok i (str "NAME"), REMOVE_THIS_LINE),
     (certTok i (str "YEAR"), REMOVE_THIS_LINE),
     (certTok i (str "PROVIDER"), REMOVE_THIS_LINE),
     (certTok i (str "LOCATION"), REMOVE_THIS_LINE)]

/-- The certifications replacement dict (utils.py lines 269-290). -/
def cert_repl (d : Record) : List (Str × Str) :=
  (List.range' 1 10).flatMap (cert_slot_repl d)

/-- The combined replacement dict `\x7b**basic, **exp, **edu, **cert\x7d`
(utils.py line 311): the key sets of the four dicts are pairwise disjoint, so
the merge is concatenation in insertion order. -/
def all_repl (d : Record) : List (Str × Str) :=
  basic_repl d ++ exp_repl d ++ edu_repl d ++ cert_repl d

/-- Fuel-indexed body of `replaceAll`; the pattern is always non-empty here,
so every step consumes at least one character and fuel equal to the input
length suffices. -/
def replaceAllFuel (pat val : Str) : Nat → Str → Str
  | 0, s => s
  | n + 1, s =>
    match s with
    | [] => []
    | c :: t =>
      if pat.isPrefixOf (c :: t) then
        val ++ replaceAllFuel pat val n (t.drop (pat.length - 1))
      else c :: replaceAllFuel pat val n t

/-- Python `s.replace(pat, val)` for non-empty `pat`: replace every
non-overlapping occurrence, scanning left to right without rescanning the
substituted text. -/
def replaceAll (pat val s : Str) : Str := replaceAllFuel pat val s.length s

/-- Fuel-indexed body of `replaceFirst`. -/
def replaceFirstFuel (pat val : Str) : Nat → Str → Str
  | 0, s => s
  | n + 1, s =>
    match s with
    | [] => []
    | c :: t =>
      if pat.isPrefixOf (c :: t) then val ++ (c :: t).drop pat.length
      else c :: replaceFirstFuel pat val n t

/-- Python `s.replace(pat, val, 1)`: replace only the first occurrence. -/
def replaceFirst (pat val s : Str) : Str := replaceFirstFuel pat val s.length s

/-- Apply the replacement dict to a text, in insertion order (utils.py lines
321-325 and 415-417; the `if placeholder in new_text` guard makes no
difference to the result and the `value is None` check is dead for string
values). -/
def applyRepl (repl : List (Str × Str)) (t0 : Str) : Str :=
  repl.foldl
    (fun acc pv => if containsSub pv.1 acc then replaceAll pv.1 pv.2 acc else acc) t0

/-- Fuel-indexed body of `pySplitOn`; the separator is always non-empty
here. -/
def pySplitOnAux (sep : Str) : Nat → Str → Str → List Str
  | 0, acc, s => [acc.reverse ++ s]
  | n + 1, acc, s =>
    match s with
    | [] => [acc.reverse]
    | c :: t =>
      if sep.isPrefixOf (c :: t) then
        acc.reverse :: pySplitOnAux sep n [] (t.drop (sep.length - 1))
      else pySplitOnAux sep n (c :: acc) t

/-- Python `s.split(sep)` for non-empty `sep`. -/
def pySplitOn (sep s : Str) : List Str := pySplitOnAux sep s.length [] s

/-- Bold-marker run splitting (utils.py lines 346-370, identically 441-465):
the text is split on the opening marker; the part before the first marker
yields a plain run when non-empty; every later part containing the closing
marker yields a bold run for the text before the first closing marker and a
plain run for the text between the first and second closing marker when
non-empty; later parts without the closing marker are dropped. -/
def boldSplitRuns (t : Str) : List Run :=
  match pySplitOn BOLD_OPEN t with
  | [] => []
  | first :: restParts =>
    (if first ≠ [] then [Run.mk first false] else []) ++
    restParts.flatMap (fun part =>
      if containsSub BOLD_CLOSE part then
        match pySplitOn BOLD_CLOSE part with
        | [] => []
        | b :: rest2 =>
          Run.mk b true ::
          (match rest2 with
           | r1 :: _ => if r1 ≠ [] then [Run.mk r1 false] else []
           | [] => [])
      else [])

/-- Process one top-level paragraph (utils.py lines 316-385): `none` when the
paragraph is queued for removal and removed, otherwise the resulting
paragraph. -/
def processPara (repl : List (Str × Str)) (p : Para) : Option Para :=
  let original := p.text
  let new1 := applyRepl repl original
  if containsSub DELETE_EXPERIENCE new1 then none
  else
    let hasRemove := containsSub REMOVE_THIS_LINE new1
    let new2 := if hasRemove then replaceAll REMOVE_THIS_LINE [] new1 else new1
    if hasRemove &&
        (decide (pyStrip new2 = []) || decide (pyStrip new2 = str "-")
          || decide (pyStrip new2 = str "•")) then none
    else if new2 ≠ original then
      some ⟨if pyStrip new2 = str "-" then []
        else if containsSub BOLD_OPEN new2 && containsSub BOLD_CLOSE new2 then
          boldSplitRuns new2
        else [Run.mk new2 false]⟩
    else some p

/-- Render one line of multi-line cell content (utils.py lines 469-496): a
line whose trimmed text starts with "Project Name:" and contains "Location:"
(with or without "Duration:") becomes a single bold run, any other line a
plain run. -/
def cellLineRun (line : Str) : Run :=
  if (str "Project Name:").isPrefixOf (pyStrip line) &&
      (containsSub (str "Location:") (pyStrip line) &&
       containsSub (str "Duration:") (pyStrip line)) then
    Run.mk line true
  else if (str "Project Name:").isPrefixOf (pyStrip line) &&
      containsSub (str "Location:") (pyStrip line) then
    Run.mk line true
  else Run.mk line false

/-- Render single-line cell content (utils.py lines 497-525).  The
leading-bullet strip on lines 502-503 and 511-512 is dead code: it is guarded
by the trimmed text starting with "Project Name:", which excludes it starting
with "• ". -/
def singleLineRun (t : Str) : Run :=
  if (str "Project Name:").isPrefixOf (pyStrip t) &&
      (containsSub (str "Location:") (pyStrip t) &&
       containsSub (str "Duration:") (pyStrip t)) then
    Run.mk (if (str "• ").isPrefixOf (pyStrip t) then replaceFirst (str "• ") [] t else t)
      true
  else if (str "Project Name:").isPrefixOf (pyStrip t) &&
      containsSub (str "Location:") (pyStrip t) then
    Run.mk (if (str "• ").isPrefixOf (pyStrip t) then replaceFirst (str "• ") [] t else t)
      true
  else Run.mk t false

/-- Process one paragraph of a table cell (utils.py lines 410-525): the first
component is the paragraph as it remains in place (`none` when removed), the
second the paragraphs appended to the end of the cell by multi-line
expansion.  A paragraph whose substituted text contains the section-deletion
sentinel is skipped (`continue`) and therefore left untouched. -/
def processCellPara (repl : List (Str × Str)) (p : Para) : Option Para × List Para :=
  let original := p.text
  let new1 := applyRepl repl original
  if containsSub DELETE_EXPERIENCE new1 then (some p, [])
  else
    let hasRemove := containsSub REMOVE_THIS_LINE new1
    let new2 := if hasRemove then replaceAll REMOVE_THIS_LINE [] new1 else new1
    if hasRemove &&
        (decide (pyStrip new2 = []) || decide (pyStrip new2 = str "-")
          || decide (pyStrip new2 = str "•")) then (none, [])
    else if new2 ≠ original then
      if pyStrip new2 = str "-" then (none, [])
      else if containsSub BOLD_OPEN new2 && containsSub BOLD_CLOSE new2 then
        (some ⟨boldSplitRuns new2⟩, [])
      else if containsSub (str "\n") new2 then
        match pySplitOn (str "\n") new2 with
        | [] => (some ⟨[]⟩, [])
        | l0 :: ls => (some ⟨[cellLineRun l0]⟩, ls.map (fun l => ⟨[cellLineRun l]⟩))
      else (some ⟨[singleLineRun new2]⟩, [])
    else (some p, [])

/-- Process all paragraphs of a cell: kept paragraphs stay in place, appended
paragraphs (from multi-line expansion, python-docx `cell.add_paragraph`) end
up at the end of the cell; only the snapshot of paragraphs present at loop
start is processed. -/
def processCell (repl : List (Str × Str)) (cell : Cell) : Cell :=
  let results := cell.paras.map (processCellPara repl)
  ⟨results.filterMap Prod.fst ++ (results.map Prod.snd).flatten⟩

/-- Embedding of `get_row_text` (utils.py lines 151-157). -/
def get_row_text (row : Row) : Str :=
  ((row.cells.map (fun cell => (cell.paras.map (fun p => p.text ++ [' '])).flatten))).flatten

/-- Embedding of `contains_experience_placeholder` (utils.py lines 141-149):
COMPANY, ROLE and DURATION tokens and the open-ended RESP prefix; the
LOCATION token is not among the patterns. -/
def contains_experience_placeholder (text : Str) (exp_num : Nat) : Bool :=
  containsSub (expTok exp_num (str "COMPANY")) text ||
  containsSub (expTok exp_num (str "ROLE")) text ||
  containsSub (expTok exp_num (str "DURATION")) text ||
  containsSub (str "\x7b\x7bEXP" ++ (natStr exp_num ++ str "_RESP")) text

/-- First pass over a table (utils.py lines 391-401): indices of rows whose
text mentions a placeholder of an experience slot without data. -/
def rowsToDelete (withData : List Nat) (rows : List Row) : List Nat :=
  ((rows.enum).filter (fun ir =>
    (List.range' 1 20).any (fun n =>
      contains_experience_placeholder (get_row_text ir.2) n &&
        !(withData.contains n)))).map Prod.fst

/-- Process one table (utils.py lines 388-540): queue rows for deletion, run
cell processing on the surviving rows, then delete the queued rows (the
descending-index physical removal amounts to dropping exactly those
indices; the per-row `try/except` cannot fail in this model). -/
def processTable (repl : List (Str × Str)) (withData : List Nat) (table : Table) :
    Table :=
  let del := rowsToDelete withData table.rows
  let rows2 := (table.rows.enum).map (fun ir =>
    if del.contains ir.1 then ir.2 else Row.mk (ir.2.cells.map (processCell repl)))
  ⟨((rows2.enum).filter (fun ir => !(del.contains ir.1))).map Prod.snd⟩

/-- Embedding of `fill_template` (utils.py lines 182-542). -/
def fill_template (doc : Doc) (d : Record) : Doc :=
  let repl := all_repl d
  let withData := experiences_with_data d
  ⟨doc.paragraphs.filterMap (processPara repl),
   doc.tables.map (processTable repl withData)⟩

theorem applyRepl_append (l1 l2 : List (Str × Str)) (t : Str) :
    applyRepl (l1 ++ l2) t = applyRepl l2 (applyRepl l1 t) := by
  rw [applyRepl, applyRepl, applyRepl, List.foldl_append]

theorem applyRepl_no_match (l : List (Str × Str)) (t : Str)
    (h : ∀ pv ∈ l, containsSub pv.1 t = false) : applyRepl l t = t := by
  induction l with
  | nil => rfl
  | cons pv l2 ih =>
    rw [applyRepl, List.foldl_cons]
    rw [show (if containsSub pv.1 t then replaceAll pv.1 pv.2 t else t) = t from by
      rw [h pv (List.mem_cons_self pv l2)]; simp]
    exact ih (fun q hq => h q (List.mem_cons_of_mem pv hq))

theorem isPrefixOf_trans {p2 p1 s : Str} (h12 : p2.isPrefixOf p1 = true)
    (h1s : p1.isPrefixOf s = true) : p2.isPrefixOf s = true := by
  rw [List.isPrefixOf_iff_prefix] at h12 h1s ⊢
  exact h12.trans h1s

theorem containsSub_prefix_false {p2 p1 t : Str} (hpre : p2.isPrefixOf p1 = true)
    (h : containsSub p2 t = false) : containsSub p1 t = false := by
  induction t with
  | nil =>
    cases hp : p1.isPrefixOf [] with
    | false => rw [containsSub, hp]
    | true =>
      exfalso
      rw [containsSub, isPrefixOf_trans hpre hp] at h
      exact absurd h (by simp)
  | cons c t2 ih =>
    rw [containsSub] at h ⊢
    rw [Bool.or_eq_false_iff] at h
    rw [Bool.or_eq_false_iff]
    refine ⟨?_, ih h.2⟩
    cases hp : p1.isPrefixOf (c :: t2) with
    | false => rfl
    | true =>
      exfalso
      have := isPrefixOf_trans hpre hp
      rw [this] at h
      exact absurd h.1 (by simp)

theorem isPrefixOf_append_self (l r : Str) : l.isPrefixOf (l ++ r) = true := by
  rw [List.isPrefixOf_iff_prefix]
  exact List.prefix_append l r

theorem expTok_pre (i : Nat) (suf : Str) :
    ((str "\x7b\x7bEXP" ++ natStr i) ++ ['_']).isPrefixOf (expTok i suf) = true := by
  rw [List.isPrefixOf_iff_prefix, expTok]
  rw [List.append_assoc]
  refine (List.prefix_append_right_inj (str "\x7b\x7bEXP")).mpr ?_
  refine (List.prefix_append_right_inj (natStr i)).mpr ?_
  simp

theorem eduTok_pre (i : Nat) (suf : Str) :
    ((str "\x7b\x7bEDU" ++ natStr i) ++ ['_']).isPrefixOf (eduTok i suf) = true := by
  rw [List.isPrefixOf_iff_prefix, eduTok]
  rw [List.append_assoc]
  refine (List.prefix_append_right_inj (str "\x7b\x7bEDU")).mpr ?_
  refine (List.prefix_append_right_inj (natStr i)).mpr ?_
  simp

theorem certTok_pre (i : Nat) (suf : Str) :
    ((str "\x7b\x7bCERT" ++ natStr i) ++ ['_']).isPrefixOf (certTok i suf) = true := by
  rw [List.isPrefixOf_iff_prefix, certTok]
  rw [List.append_assoc]
  refine (List.prefix_append_right_inj (str "\x7b\x7bCERT")).mpr ?_
  refine (List.prefix_append_right_inj (natStr i)).mpr ?_
  simp

theorem exp_slot_keys_pre (d : Record) (i : Nat) :
    ∀ pv ∈ exp_slot_repl d i,
      ((str "\x7b\x7bEXP" ++ natStr i) ++ ['_']).isPrefixOf pv.1 = true := by
  intro pv hpv
  simp only [exp_slot_repl] at hpv
  split at hpv
  · split at hpv
    · simp only [List.mem_cons] at hpv
      rcases hpv with h | h | h | h | h
      · rw [h]; exact expTok_pre i _
      · rw [h]; exact expTok_pre i _
      · rw [h]; exact expTok_pre i _
      · rw [h]; exact expTok_pre i _
      · rcases List.mem_map.mp h with ⟨j, _, rfl⟩
        exact expTok_pre i _
    · simp only [List.mem_cons] at hpv
      rcases hpv with h | h | h | h | h
      · rw [h]; exact expTok_pre i _
      · rw [h]; exact expTok_pre i _
      · rw [h]; exact expTok_pre i _
      · rw [h]; exact expTok_pre i _
      · rcases List.mem_map.mp h with ⟨j, _, rfl⟩
        exact expTok_pre i _
  · simp only [List.mem_cons] at hpv
    rcases hpv with h | h | h | h | h
    · rw [h]; exact expTok_pre i _
    · rw [h]; exact expTok_pre i _
    · rw [h]; exact expTok_pre i _
    · rw [h]; exact expTok_pre i _
    · rcases List.mem_map.mp h with ⟨j, _, rfl⟩
      exact expTok_pre i _

theorem edu_slot_keys_pre (d : Record) (i : Nat) :
    ∀ pv ∈ edu_slot_repl d i,
      ((str "\x7b\x7bEDU" ++ natStr i) ++ ['_']).isPrefixOf pv.1 = true := by
  intro pv hpv
  simp only [edu_slot_repl] at hpv
  split at hpv <;> simp only [List.mem_cons, List.not_mem_nil, or_false] at hpv <;>
    rcases hpv with h | h | h <;> (rw [show pv = _ from h]; exact eduTok_pre i _)

theorem cert_slot_keys_pre (d : Record) (i : Nat) :
    ∀ pv ∈ cert_slot_repl d i,
      ((str "\x7b\x7bCERT" ++ natStr i) ++ ['_']).isPrefixOf pv.1 = true := by
  intro pv hpv
  simp only [cert_slot_repl] at hpv
  split at hpv <;> simp only [List.mem_cons, List.not_mem_nil, or_false] at hpv <;>
    rcases hpv with h | h | h | h <;> (rw [show pv = _ from h]; exact certTok_pre i _)

theorem applyRepl_flat_noop {α : Type} (f : α → List (Str × Str)) (L : List α) (t : Str)
    (h : ∀ a ∈ L, applyRepl (f a) t = t) : applyRepl (L.flatMap f) t = t := by
  induction L with
  | nil => rfl
  | cons a L2 ih =>
    rw [List.flatMap_cons, applyRepl_append, h a (List.mem_cons_self a L2)]
    exact ih (fun b hb => h b (List.mem_cons_of_mem a hb))

theorem applyRepl_exp_noop (d : Record) (t : Str)
    (h : containsSub (str "\x7b\x7bEXP") t = false) :
    applyRepl (exp_repl d) t = t := by
  refine applyRepl_flat_noop _ _ _ (fun i _ => applyRepl_no_match _ _ (fun pv hpv => ?_))
  refine containsSub_prefix_false ?_ h
  exact isPrefixOf_trans (isPrefixOf_append_self (str "\x7b\x7bEXP") (natStr i ++ ['_']))
    (by rw [← List.append_assoc]; exact exp_slot_keys_pre d i pv hpv)

theorem applyRepl_edu_noop (d : Record) (t : Str)
    (h : containsSub (str "\x7b\x7bEDU") t = false) :
    applyRepl (edu_repl d) t = t := by
  refine applyRepl_flat_noop _ _ _ (fun i _ => applyRepl_no_match _ _ (fun pv hpv => ?_))
  refine containsSub_prefix_false ?_ h
  exact isPrefixOf_trans (isPrefixOf_append_self (str "\x7b\x7bEDU") (natStr i ++ ['_']))
    (by rw [← List.append_assoc]; exact edu_slot_keys_pre d i pv hpv)

theorem applyRepl_cert_noop (d : Record) (t : Str)
    (h : containsSub (str "\x7b\x7bCERT") t = false) :
    applyRepl (cert_repl d) t = t := by
  refine applyRepl_flat_noop _ _ _ (fun i _ => applyRepl_no_match _ _ (fun pv hpv => ?_))
  refine containsSub_prefix_false ?_ h
  exact isPrefixOf_trans (isPrefixOf_append_self (str "\x7b\x7bCERT") (natStr i ++ ['_']))
    (by rw [← List.append_assoc]; exact cert_slot_keys_pre d i pv hpv)

theorem applyRepl_slot_noop (d : Record) (i : Nat) (t : Str)
    (h : containsSub ((str "\x7b\x7bEXP" ++ natStr i) ++ ['_']) t = false) :
    applyRepl (exp_slot_repl d i) t = t :=
  applyRepl_no_match _ _ (fun pv hpv =>
    containsSub_prefix_false (exp_slot_keys_pre d i pv hpv) h)

/-- Decomposition of the replacement dict into chunks small enough to
evaluate one at a time. -/
theorem all_repl_eq (d : Record) (t : Str) :
    applyRepl (all_repl d) t =
      applyRepl (cert_repl d) (applyRepl (edu_repl d)
        (applyRepl (exp_repl d) (applyRepl (basic_repl d) t))) := by
  rw [all_repl, applyRepl_append, applyRepl_append, applyRepl_append]

theorem exp_repl_eq (d : Record) (t : Str) :
    applyRepl (exp_repl d) t =
      applyRepl ((List.range' 11 10).flatMap (exp_slot_repl d))
        (applyRepl ((List.range' 1 10).flatMap (exp_slot_repl d)) t) := by
  rw [exp_repl, show List.range' 1 20 = List.range' 1 10 ++ List.range' 11 10 from by decide]
  rw [List.flatMap_append, applyRepl_append]

theorem applyRepl_exp_flat_noBrace (d : Record) (L : List Nat) (t : Str)
    (h : containsSub ['\x7b'] t = false) :
    applyRepl (L.flatMap (exp_slot_repl d)) t = t := by
  refine applyRepl_flat_noop _ _ _ (fun i _ => applyRepl_no_match _ _ (fun pv hpv => ?_))
  refine containsSub_prefix_false (isPrefixOf_trans ?_ (exp_slot_keys_pre d i pv hpv)) h
  rfl

theorem applyRepl_edu_flat_noBrace (d : Record) (L : List Nat) (t : Str)
    (h : containsSub ['\x7b'] t = false) :
    applyRepl (L.flatMap (edu_slot_repl d)) t = t := by
  refine applyRepl_flat_noop _ _ _ (fun i _ => applyRepl_no_match _ _ (fun pv hpv => ?_))
  refine containsSub_prefix_false (isPrefixOf_trans ?_ (edu_slot_keys_pre d i pv hpv)) h
  rfl

theorem applyRepl_cert_flat_noBrace (d : Record) (L : List Nat) (t : Str)
    (h : containsSub ['\x7b'] t = false) :
    applyRepl (L.flatMap (cert_slot_repl d)) t = t := by
  refine applyRepl_flat_noop _ _ _ (fun i _ => applyRepl_no_match _ _ (fun pv hpv => ?_))
  refine containsSub_prefix_false (isPrefixOf_trans ?_ (cert_slot_keys_pre d i pv hpv)) h
  rfl

theorem exp_repl_cons (d : Record) :
    exp_repl d = exp_slot_repl d 1 ++ (List.range' 2 19).flatMap (exp_slot_repl d) := by
  rw [exp_repl, show List.range' 1 20 = 1 :: List.range' 2 19 from by decide,
    List.flatMap_cons]

theorem edu_repl_noBrace (d : Record) (t : Str)
    (h : containsSub ['\x7b'] t = false) : applyRepl (edu_repl d) t = t :=
  applyRepl_edu_flat_noBrace d _ t h

theorem cert_repl_noBrace (d : Record) (t : Str)
    (h : containsSub ['\x7b'] t = false) : applyRepl (cert_repl d) t = t :=
  applyRepl_cert_flat_noBrace d _ t h

/-- First-match lookup in an association list; since every key is assigned
exactly once while the Python dicts are built, this coincides with Python
dict lookup. -/
def lookupRepl : List (Str × Str) → Str → Option Str
  | [], _ => none
  | pv :: l, k => if pv.1 = k then some pv.2 else lookupRepl l k

theorem lookupRepl_append (l1 l2 : List (Str × Str)) (k : Str) :
    lookupRepl (l1 ++ l2) k =
      ((lookupRepl l1 k).rec (lookupRepl l2 k) (fun v => some v) : Option Str) := by
  induction l1 with
  | nil => rfl
  | cons pv l ih =>
    rw [List.cons_append, lookupRepl, lookupRepl]
    split
    · rfl
    · exact ih

theorem lookupRepl_not_mem (l : List (Str × Str)) (k : Str)
    (h : ∀ pv ∈ l, pv.1 ≠ k) : lookupRepl l k = none := by
  induction l with
  | nil => rfl
  | cons pv l2 ih =>
    rw [lookupRepl, if_neg (h pv (List.mem_cons_self pv l2))]
    exact ih (fun q hq => h q (List.mem_cons_of_mem pv hq))

theorem digit_run_inj (a : Str) : ∀ (b x y : Str) (c e : Char),
    a.all isDigitCh = true → b.all isDigitCh = true →
    isDigitCh c = false → isDigitCh e = false →
    a ++ c :: x = b ++ e :: y → a = b ∧ c = e ∧ x = y := by
  induction a with
  | nil =>
    intro b x y c e _ hb hc he heq
    cases b with
    | nil =>
      simp only [List.nil_append] at heq
      exact ⟨rfl, (List.cons.inj heq).1, (List.cons.inj heq).2⟩
    | cons b0 b2 =>
      exfalso
      simp only [List.nil_append, List.cons_append] at heq
      have hb0 := (List.cons.inj heq).1
      rw [← hb0] at hb
      rw [all_head hb] at hc
      exact absurd hc (by simp)
  | cons a0 a2 ih =>
    intro b x y c e ha hb hc he heq
    cases b with
    | nil =>
      exfalso
      simp only [List.nil_append, List.cons_append] at heq
      have ha0 := (List.cons.inj heq).1
      rw [ha0] at ha
      rw [all_head ha] at he
      exact absurd he (by simp)
    | cons b0 b2 =>
      simp only [List.cons_append] at heq
      have h1 := (List.cons.inj heq).1
      have h2 := (List.cons.inj heq).2
      rcases ih b2 x y c e (all_tail ha) (all_tail hb) hc he h2 with ⟨hab, hce, hxy⟩
      exact ⟨by rw [h1, hab], hce, hxy⟩

set_option maxRecDepth 40000 in
theorem natStr_digits : ∀ n : Nat, n < 101 → (natStr n).all isDigitCh = true := by decide

set_option maxRecDepth 40000 in
theorem natStr_inj : ∀ m : Nat, m < 101 → ∀ n : Nat, n < 101 →
    natStr m = natStr n → m = n := by decide

theorem expTok_cross_ne {i i2 : Nat} (hi : i < 101) (hi2 : i2 < 101) (hne : i ≠ i2)
    (suf suf2 : Str) : expTok i suf ≠ expTok i2 suf2 := by
  intro heq
  rw [expTok, expTok] at heq
  have h2 := List.append_cancel_left heq
  rcases digit_run_inj _ _ _ _ _ _ (natStr_digits i hi) (natStr_digits i2 hi2)
    (by decide) (by decide) h2 with ⟨hab, _, _⟩
  exact hne (natStr_inj i hi i2 hi2 hab)

theorem expTok_suf_inj {i : Nat} {suf suf2 : Str}
    (heq : expTok i suf = expTok i2 suf2) (hii : i = i2) :
    suf ++ str "\x7d\x7d" = suf2 ++ str "\x7d\x7d" := by
  subst hii
  rw [expTok, expTok] at heq
  have h2 := List.append_cancel_left heq
  have h3 := List.append_cancel_left h2
  exact (List.cons.inj h3).2

theorem expTok_same_slot_ne (i : Nat) (s1 s2 : Str)
    (h : s1 ++ str "\x7d\x7d" ≠ s2 ++ str "\x7d\x7d") : expTok i s1 ≠ expTok i s2 :=
  fun heq => h (expTok_suf_inj heq rfl)

theorem respSuf_append_ne_company (j : Nat) :
    respSuf j ++ str "\x7d\x7d" ≠ str "COMPANY" ++ str "\x7d\x7d" := by
  intro h
  exact absurd (List.cons.inj h).1 (by decide)

theorem respSuf_append_ne_role (j : Nat) :
    respSuf j ++ str "\x7d\x7d" ≠ str "ROLE" ++ str "\x7d\x7d" := by
  intro h
  exact absurd ((List.cons.inj (List.cons.inj h).2).1) (by decide)

theorem respSuf_append_ne_duration (j : Nat) :
    respSuf j ++ str "\x7d\x7d" ≠ str "DURATION" ++ str "\x7d\x7d" := by
  intro h
  exact absurd (List.cons.inj h).1 (by decide)

theorem respSuf_append_ne_location (j : Nat) :
    respSuf j ++ str "\x7d\x7d" ≠ str "LOCATION" ++ str "\x7d\x7d" := by
  intro h
  exact absurd (List.cons.inj h).1 (by decide)

theorem respSuf_inj {j j2 : Nat} (hj : j < 101) (hj2 : j2 < 101)
    (h : respSuf j ++ str "\x7d\x7d" = respSuf j2 ++ str "\x7d\x7d") : j = j2 := by
  rw [respSuf, respSuf, List.append_assoc, List.append_assoc] at h
  have h2 := List.append_cancel_left h
  rcases digit_run_inj _ _ _ _ _ _ (natStr_digits j hj) (natStr_digits j2 hj2)
    (by decide) (by decide) h2 with ⟨hab, _, _⟩
  exact natStr_inj j hj j2 hj2 hab

theorem lookup_resp_map (i : Nat) (f : Nat → Str) (j : Nat) :
    ∀ (n a : Nat), a + n ≤ 101 → a ≤ j → j < a + n →
    lookupRepl ((List.range' a n).map (fun j2 => (expTok i (respSuf j2), f j2)))
      (expTok i (respSuf j)) = some (f j) := by
  intro n
  induction n with
  | zero => intro a _ haj hja; omega
  | succ n2 ih =>
    intro a hbound haj hja
    rw [List.range'_succ, List.map_cons, lookupRepl]
    by_cases haj2 : a = j
    · subst haj2
      rw [if_pos rfl]
    · rw [if_neg (by
        intro heq
        exact haj2 (respSuf_inj (by omega) (by omega) (expTok_suf_inj heq.symm rfl).symm))]
      exact ih (a + 1) (by omega) (by omega) (by omega)

theorem lookup_slot_databearing (d : Record) (i : Nat)
    (hlen : i ≤ d.experiences.length)
    (hc : (d.experiences.getD (i - 1) default).company ≠ [])
    (hr : (d.experiences.getD (i - 1) default).role ≠ []) :
    lookupRepl (exp_slot_repl d i) (expTok i (str "COMPANY")) =
      some (BOLD_OPEN ++ ((d.experiences.getD (i - 1) default).company ++ BOLD_CLOSE)) ∧
    lookupRepl (exp_slot_repl d i) (expTok i (str "ROLE")) =
      some (d.experiences.getD (i - 1) default).role ∧
    lookupRepl (exp_slot_repl d i) (expTok i (str "DURATION")) =
      some (d.experiences.getD (i - 1) default).duration ∧
    lookupRepl (exp_slot_repl d i) (expTok i (str "LOCATION")) =
      some (if pyStrip (d.experiences.getD (i - 1) default).location ≠ [] then
        (d.experiences.getD (i - 1) default).location
        else str "Location Not Specified") ∧
    (∀ j : Nat, 1 ≤ j → j ≤ 100 →
      lookupRepl (exp_slot_repl d i) (expTok i (respSuf j)) =
        some (if j ≤ (d.experiences.getD (i - 1) default).responsibilities.length then
          (d.experiences.getD (i - 1) default).responsibilities.getD (j - 1) []
          else REMOVE_THIS_LINE)) := by
  have hunf : exp_slot_repl d i =
      (expTok i (str "COMPANY"),
        BOLD_OPEN ++ ((d.experiences.getD (i - 1) default).company ++ BOLD_CLOSE)) ::
      (expTok i (str "ROLE"), (d.experiences.getD (i - 1) default).role) ::
      (expTok i (str "DURATION"), (d.experiences.getD (i - 1) default).duration) ::
      (expTok i (str "LOCATION"),
        if pyStrip (d.experiences.getD (i - 1) default).location ≠ [] then
          (d.experiences.getD (i - 1) default).location
        else str "Location Not Specified") ::
      (List.range' 1 100).map (fun j =>
        (expTok i (respSuf j),
          if j ≤ (d.experiences.getD (i - 1) default).responsibilities.length then
            (d.experiences.getD (i - 1) default).responsibilities.getD (j - 1) []
          else REMOVE_THIS_LINE)) := by
    rw [exp_slot_repl, if_pos hlen]
    simp only []
    rw [if_pos ⟨hc, hr⟩]
  refine ⟨?_, ?_, ?_, ?_, ?_⟩
  · rw [hunf, lookupRepl, if_pos rfl]
  · rw [hunf, lookupRepl,
      if_neg (expTok_same_slot_ne i _ _ (by decide)), lookupRepl, if_pos rfl]
  · rw [hunf, lookupRepl,
      if_neg (expTok_same_slot_ne i _ _ (by decide)), lookupRepl,
      if_neg (expTok_same_slot_ne i _ _ (by decide)), lookupRepl, if_pos rfl]
  · rw [hunf, lookupRepl,
      if_neg (expTok_same_slot_ne i _ _ (by decide)), lookupRepl,
      if_neg (expTok_same_slot_ne i _ _ (by decide)), lookupRepl,
      if_neg (expTok_same_slot_ne i _ _ (by decide)), lookupRepl, if_pos rfl]
  · intro j hj1 hj2
    rw [hunf, lookupRepl,
      if_neg (expTok_same_slot_ne i _ _ (respSuf_append_ne_company j).symm),
      lookupRepl,
      if_neg (expTok_same_slot_ne i _ _ (respSuf_append_ne_role j).symm),
      lookupRepl,
      if_neg (expTok_same_slot_ne i _ _ (respSuf_append_ne_duration j).symm),
      lookupRepl,
      if_neg (expTok_same_slot_ne i _ _ (respSuf_append_ne_location j).symm)]
    exact lookup_resp_map i _ j 100 1 (by omega) (by omega) (by omega)

theorem lookup_slot_delete (d : Record) (i : Nat)
    (h : ¬(i ≤ d.experiences.length ∧
      (d.experiences.getD (i - 1) default).company ≠ [] ∧
      (d.experiences.getD (i - 1) default).role ≠ [])) :
    lookupRepl (exp_slot_repl d i) (expTok i (str "COMPANY")) = some DELETE_EXPERIENCE ∧
    lookupRepl (exp_slot_repl d i) (expTok i (str "ROLE")) = some DELETE_EXPERIENCE ∧
    lookupRepl (exp_slot_repl d i) (expTok i (str "DURATION")) = some DELETE_EXPERIENCE ∧
    lookupRepl (exp_slot_repl d i) (expTok i (str "LOCATION")) = some DELETE_EXPERIENCE ∧
    (∀ j : Nat, 1 ≤ j → j ≤ 100 →
      lookupRepl (exp_slot_repl d i) (expTok i (respSuf j)) = some DELETE_EXPERIENCE) := by
  have hunf : exp_slot_repl d i =
      (expTok i (str "COMPANY"), DELETE_EXPERIENCE) ::
      (expTok i (str "ROLE"), DELETE_EXPERIENCE) ::
      (expTok i (str "DURATION"), DELETE_EXPERIENCE) ::
      (expTok i (str "LOCATION"), DELETE_EXPERIENCE) ::
      (List.range' 1 100).map (fun j => (expTok i (respSuf j), DELETE_EXPERIENCE)) := by
    rw [exp_slot_repl]
    by_cases h1 : i ≤ d.experiences.length
    · rw [if_pos h1]
      simp only []
      rw [if_neg (by
        intro hcr
        exact h ⟨h1, hcr.1, hcr.2⟩)]
    · rw [if_neg h1]
  refine ⟨?_, ?_, ?_, ?_, ?_⟩
  · rw [hunf, lookupRepl, if_pos rfl]
  · rw [hunf, lookupRepl,
      if_neg (expTok_same_slot_ne i _ _ (by decide)), lookupRepl, if_pos rfl]
  · rw [hunf, lookupRepl,
      if_neg (expTok_same_slot_ne i _ _ (by decide)), lookupRepl,
      if_neg (expTok_same_slot_ne i _ _ (by decide)), lookupRepl, if_pos rfl]
  · rw [hunf, lookupRepl,
      if_neg (expTok_same_slot_ne i _ _ (by decide)), lookupRepl,
      if_neg (expTok_same_slot_ne i _ _ (by decide)), lookupRepl,
      if_neg (expTok_same_slot_ne i _ _ (by decide)), lookupRepl, if_pos rfl]
  · intro j hj1 hj2
    rw [hunf, lookupRepl,
      if_neg (expTok_same_slot_ne i _ _ (respSuf_append_ne_company j).symm),
      lookupRepl,
      if_neg (expTok_same_slot_ne i _ _ (respSuf_append_ne_role j).symm),
      lookupRepl,
      if_neg (expTok_same_slot_ne i _ _ (respSuf_append_ne_duration j).symm),
      lookupRepl,
      if_neg (expTok_same_slot_ne i _ _ (respSuf_append_ne_location j).symm)]
    exact lookup_resp_map i _ j 100 1 (by omega) (by omega) (by omega)

theorem basic_keys_ne_expTok (d : Record) :
    ∀ pv ∈ basic_repl d, ∀ (i : Nat) (suf : Str), pv.1 ≠ expTok i suf := by
  intro pv hpv i suf heq
  simp only [basic_repl, List.mem_cons, List.not_mem_nil, or_false] at hpv
  rcases hpv with rfl | rfl | rfl | rfl | rfl | rfl | rfl | rfl
  · have h2 : ((str "\x7b\x7bCANDIDATE_NAME\x7d\x7d" : Str)[2]? : Option Char) =
        (expTok i suf)[2]? := congrArg (fun l : Str => l[2]?) heq
    rw [show ((expTok i suf)[2]? : Option Char) = some 'E' from rfl] at h2
    exact absurd h2 (by decide)
  · have h2 : ((str "\x7b\x7bPOSITION\x7d\x7d" : Str)[2]? : Option Char) =
        (expTok i suf)[2]? := congrArg (fun l : Str => l[2]?) heq
    rw [show ((expTok i suf)[2]? : Option Char) = some 'E' from rfl] at h2
    exact absurd h2 (by decide)
  · have h2 : ((str "\x7b\x7bTOTAL_EXPERIENCE_YEARS\x7d\x7d" : Str)[2]? : Option Char) =
        (expTok i suf)[2]? := congrArg (fun l : Str => l[2]?) heq
    rw [show ((expTok i suf)[2]? : Option Char) = some 'E' from rfl] at h2
    exact absurd h2 (by decide)
  · have h2 : ((str "\x7b\x7bPHONE\x7d\x7d" : Str)[2]? : Option Char) =
        (expTok i suf)[2]? := congrArg (fun l : Str => l[2]?) heq
    rw [show ((expTok i suf)[2]? : Option Char) = some 'E' from rfl] at h2
    exact absurd h2 (by decide)
  · have h2 : ((str "\x7b\x7bEMAIL\x7d\x7d" : Str)[3]? : Option Char) =
        (expTok i suf)[3]? := congrArg (fun l : Str => l[3]?) heq
    rw [show ((expTok i suf)[3]? : Option Char) = some 'X' from rfl] at h2
    exact absurd h2 (by decide)
  · have h2 : ((str "\x7b\x7bINTRO_PARAGRAPH\x7d\x7d" : Str)[2]? : Option Char) =
        (expTok i suf)[2]? := congrArg (fun l : Str => l[2]?) heq
    rw [show ((expTok i suf)[2]? : Option Char) = some 'E' from rfl] at h2
    exact absurd h2 (by decide)
  · have h2 : ((str "\x7b\x7bTECHNICAL_SKILLS_LIST\x7d\x7d" : Str)[2]? : Option Char) =
        (expTok i suf)[2]? := congrArg (fun l : Str => l[2]?) heq
    rw [show ((expTok i suf)[2]? : Option Char) = some 'E' from rfl] at h2
    exact absurd h2 (by decide)
  · have h2 : ((str "\x7b\x7bLANGUAGE_SKILLS_LIST\x7d\x7d" : Str)[2]? : Option Char) =
        (expTok i suf)[2]? := congrArg (fun l : Str => l[2]?) heq
    rw [show ((expTok i suf)[2]? : Option Char) = some 'E' from rfl] at h2
    exact absurd h2 (by decide)

theorem exp_slot_keys_form (d : Record) (i : Nat) :
    ∀ pv ∈ exp_slot_repl d i, ∃ suf : Str, pv.1 = expTok i suf := by
  intro pv hpv
  simp only [exp_slot_repl] at hpv
  split at hpv
  · split at hpv
    · simp only [List.mem_cons] at hpv
      rcases hpv with h | h | h | h | h
      · exact ⟨str "COMPANY", by rw [h]⟩
      · exact ⟨str "ROLE", by rw [h]⟩
      · exact ⟨str "DURATION", by rw [h]⟩
      · exact ⟨str "LOCATION", by rw [h]⟩
      · rcases List.mem_map.mp h with ⟨j, _, rfl⟩
        exact ⟨respSuf j, rfl⟩
    · simp only [List.mem_cons] at hpv
      rcases hpv with h | h | h | h | h
      · exact ⟨str "COMPANY", by rw [h]⟩
      · exact ⟨str "ROLE", by rw [h]⟩
      · exact ⟨str "DURATION", by rw [h]⟩
      · exact ⟨str "LOCATION", by rw [h]⟩
      · rcases List.mem_map.mp h with ⟨j, _, rfl⟩
        exact ⟨respSuf j, rfl⟩
  · simp only [List.mem_cons] at hpv
    rcases hpv with h | h | h | h | h
    · exact ⟨str "COMPANY", by rw [h]⟩
    · exact ⟨str "ROLE", by rw [h]⟩
    · exact ⟨str "DURATION", by rw [h]⟩
    · exact ⟨str "LOCATION", by rw [h]⟩
    · rcases List.mem_map.mp h with ⟨j, _, rfl⟩
      exact ⟨respSuf j, rfl⟩

theorem lookup_slot_none_of_ne (d : Record) (i i2 : Nat) (hi : i < 101) (hi2 : i2 < 101)
    (hne : i2 ≠ i) (suf : Str) :
    lookupRepl (exp_slot_repl d i2) (expTok i suf) = none := by
  refine lookupRepl_not_mem _ _ (fun pv hpv => ?_)
  rcases exp_slot_keys_form d i2 pv hpv with ⟨s2, hs⟩
  rw [hs]
  exact expTok_cross_ne hi2 hi hne s2 suf

theorem lookupRepl_exp_flat_none (d : Record) (k : Str) :
    ∀ L : List Nat, (∀ i2 ∈ L, lookupRepl (exp_slot_repl d i2) k = none) →
    lookupRepl (L.flatMap (exp_slot_repl d)) k = none := by
  intro L
  induction L with
  | nil => intro _; rfl
  | cons a L2 ih =>
    intro h
    rw [List.flatMap_cons, lookupRepl_append, h a (List.mem_cons_self a L2)]
    exact ih (fun q hq => h q (List.mem_cons_of_mem a hq))

theorem lookup_exp_repl (d : Record) (i : Nat) (h1 : 1 ≤ i) (h2 : i ≤ 20)
    (suf : Str) (v : Str)
    (hb : lookupRepl (exp_slot_repl d i) (expTok i suf) = some v) :
    lookupRepl (exp_repl d) (expTok i suf) = some v := by
  have hsplit : List.range' 1 20 = List.range' 1 (i - 1) ++ List.range' i (21 - i) := by
    have h3 := List.range'_append 1 (i - 1) (21 - i) 1
    simp only [one_mul] at h3
    rw [show 1 + (i - 1) = i from by omega] at h3
    rw [h3, show 21 - i + (i - 1) = 20 from by omega]
  rw [exp_repl, hsplit, List.flatMap_append, lookupRepl_append]
  have hnone : lookupRepl ((List.range' 1 (i - 1)).flatMap (exp_slot_repl d))
      (expTok i suf) = none := by
    refine lookupRepl_exp_flat_none d _ _ (fun i2 hi2 => ?_)
    rcases List.mem_range'.mp hi2 with ⟨t, ht, rfl⟩
    exact lookup_slot_none_of_ne d i _ (by omega) (by omega) (by omega) suf
  rw [hnone]
  show lookupRepl ((List.range' i (21 - i)).flatMap (exp_slot_repl d))
    (expTok i suf) = some v
  have hcons : List.range' i (21 - i) = i :: List.range' (i + 1) (20 - i) := by
    rw [show 21 - i = (20 - i) + 1 from by omega, List.range'_succ]
  rw [hcons, List.flatMap_cons, lookupRepl_append, hb]

theorem lookup_all_repl_exp (d : Record) (i : Nat) (h1 : 1 ≤ i) (h2 : i ≤ 20)
    (suf : Str) (v : Str)
    (hb : lookupRepl (exp_slot_repl d i) (expTok i suf) = some v) :
    lookupRepl (all_repl d) (expTok i suf) = some v := by
  have hbe : lookupRepl (basic_repl d ++ exp_repl d) (expTok i suf) = some v := by
    rw [lookupRepl_append,
      lookupRepl_not_mem (basic_repl d) _ (fun pv hpv => basic_keys_ne_expTok d pv hpv i suf)]
    show lookupRepl (exp_repl d) (expTok i suf) = some v
    exact lookup_exp_repl d i h1 h2 suf v hb
  have hbee : lookupRepl (basic_repl d ++ exp_repl d ++ edu_repl d) (expTok i suf) = some v := by
    rw [lookupRepl_append, hbe]
  show lookupRepl (basic_repl d ++ exp_repl d ++ edu_repl d ++ cert_repl d)
    (expTok i suf) = some v
  rw [lookupRepl_append, hbee]

theorem flatMap_congr_on {α β : Type} (f g : α → List β) :
    ∀ L : List α, (∀ x ∈ L, f x = g x) → L.flatMap f = L.flatMap g := by
  intro L
  induction L with
  | nil => intro _; rfl
  | cons a L2 ih =>
    intro h
    rw [List.flatMap_cons, List.flatMap_cons, h a (List.mem_cons_self a L2),
      ih (fun x hx => h x (List.mem_cons_of_mem a hx))]

theorem exp_slot_repl_take (d : Record) (i : Nat) (h2 : i ≤ 20) :
    exp_slot_repl { d with experiences := d.experiences.take 20 } i =
      exp_slot_repl d i := by
  have hget : (d.experiences.take 20).getD (i - 1) default =
      d.experiences.getD (i - 1) default := by
    rw [List.getD_eq_getElem?_getD, List.getD_eq_getElem?_getD, List.getElem?_take,
      if_pos (by omega : i - 1 < 20)]
  simp only [exp_slot_repl, hget]
  by_cases hL : i ≤ d.experiences.length
  · rw [if_pos (show i ≤ (d.experiences.take 20).length from by
        rw [List.length_take]; omega),
      if_pos hL]
  · rw [if_neg (show ¬ i ≤ (d.experiences.take 20).length from by
        rw [List.length_take]; omega),
      if_neg hL]

/-- C2: for every validated record and slot i in 1..20, the replacement map
(first-match lookup over the merged dict) sends the slot's COMPANY token to
the bold-wrapped company, ROLE and DURATION to the literal field values,
LOCATION to the location or the fallback text when blank, and RESPj to the
j-th responsibility or the line-deletion sentinel, when slot i is
data-bearing; otherwise every token of slot i resolves to the
section-deletion sentinel; and experiences past index 20 never influence the
dict (the embedding is total, so no exception is possible). -/
theorem exp_token_resolution (d : Record) (i : Nat) (h1 : 1 ≤ i) (h2 : i ≤ 20) :
    ((i ≤ d.experiences.length ∧
        (d.experiences.getD (i - 1) default).company ≠ [] ∧
        (d.experiences.getD (i - 1) default).role ≠ []) →
      (lookupRepl (all_repl d) (expTok i (str "COMPANY")) =
        some (BOLD_OPEN ++ ((d.experiences.getD (i - 1) default).company ++ BOLD_CLOSE)) ∧
       lookupRepl (all_repl d) (expTok i (str "ROLE")) =
        some (d.experiences.getD (i - 1) default).role ∧
       lookupRepl (all_repl d) (expTok i (str "DURATION")) =
        some (d.experiences.getD (i - 1) default).duration ∧
       lookupRepl (all_repl d) (expTok i (str "LOCATION")) =
        some (if pyStrip (d.experiences.getD (i - 1) default).location ≠ [] then
            (d.experiences.getD (i - 1) default).location
          else str "Location Not Specified") ∧
       (∀ j : Nat, 1 ≤ j → j ≤ 100 →
         lookupRepl (all_repl d) (expTok i (respSuf j)) =
           some (if j ≤ (d.experiences.getD (i - 1) default).responsibilities.length then
               (d.experiences.getD (i - 1) default).responsibilities.getD (j - 1) []
             else REMOVE_THIS_LINE)))) ∧
    (¬(i ≤ d.experiences.length ∧
        (d.experiences.getD (i - 1) default).company ≠ [] ∧
        (d.experiences.getD (i - 1) default).role ≠ []) →
      (lookupRepl (all_repl d) (expTok i (str "COMPANY")) = some DELETE_EXPERIENCE ∧
       lookupRepl (all_repl d) (expTok i (str "ROLE")) = some DELETE_EXPERIENCE ∧
       lookupRepl (all_repl d) (expTok i (str "DURATION")) = some DELETE_EXPERIENCE ∧
       lookupRepl (all_repl d) (expTok i (str "LOCATION")) = some DELETE_EXPERIENCE ∧
       (∀ j : Nat, 1 ≤ j → j ≤ 100 →
         lookupRepl (all_repl d) (expTok i (respSuf j)) = some DELETE_EXPERIENCE))) ∧
    all_repl d = all_repl { d with experiences := d.experiences.take 20 } := by
  refine ⟨?_, ?_, ?_⟩
  · intro hdata
    obtain ⟨ha, hb, hc, hd, he⟩ :=
      lookup_slot_databearing d i hdata.1 hdata.2.1 hdata.2.2
    exact ⟨lookup_all_repl_exp d i h1 h2 _ _ ha,
      lookup_all_repl_exp d i h1 h2 _ _ hb,
      lookup_all_repl_exp d i h1 h2 _ _ hc,
      lookup_all_repl_exp d i h1 h2 _ _ hd,
      fun j hj1 hj2 => lookup_all_repl_exp d i h1 h2 _ _ (he j hj1 hj2)⟩
  · intro hnone
    obtain ⟨ha, hb, hc, hd, he⟩ := lookup_slot_delete d i hnone
    exact ⟨lookup_all_repl_exp d i h1 h2 _ _ ha,
      lookup_all_repl_exp d i h1 h2 _ _ hb,
      lookup_all_repl_exp d i h1 h2 _ _ hc,
      lookup_all_repl_exp d i h1 h2 _ _ hd,
      fun j hj1 hj2 => lookup_all_repl_exp d i h1 h2 _ _ (he j hj1 hj2)⟩
  · have hexp : exp_repl d = exp_repl { d with experiences := d.experiences.take 20 } := by
      refine (flatMap_congr_on _ _ _ (fun i2 hi2 => ?_)).symm
      rcases List.mem_range'.mp hi2 with ⟨t, ht, rfl⟩
      exact exp_slot_repl_take d _ (by omega)
    show basic_repl d ++ exp_repl d ++ edu_repl d ++ cert_repl d =
      basic_repl { d with experiences := d.experiences.take 20 } ++
        exp_repl { d with experiences := d.experiences.take 20 } ++
        edu_repl { d with experiences := d.experiences.take 20 } ++
        cert_repl { d with experiences := d.experiences.take 20 }
    rw [hexp]
    rfl

/-- Record used to witness the C2 theorem at slot 1. -/
def c2recW : Record :=
  ⟨str "Jane Doe", [], [], [], [], [],
   [⟨str "Formation Bio", str "New York, NY", str "Engineer", str "2020 - 2023",
     [str "Task 1"]⟩],
   [], [], [], [str "English - Fluent"]⟩

/-- Witness for the C2 theorem: slot 1 of a one-experience record is
data-bearing and its COMPANY token resolves to the bold-wrapped company. -/
theorem exp_token_resolution_witness :
    1 ≤ 1 ∧ 1 ≤ 20 ∧
    (1 ≤ c2recW.experiences.length ∧
     (c2recW.experiences.getD 0 default).company ≠ [] ∧
     (c2recW.experiences.getD 0 default).role ≠ []) ∧
    lookupRepl (all_repl c2recW) (expTok 1 (str "COMPANY")) =
      some (BOLD_OPEN ++ ((c2recW.experiences.getD 0 default).company ++ BOLD_CLOSE)) :=
  ⟨by decide, by decide, by decide,
    ((exp_token_resolution c2recW 1 (by decide) (by decide)).1 (by decide)).1⟩

theorem enumFrom_map_filter {α β : Type} (q : Nat → Bool) (f : Nat × α → β) :
    ∀ (l : List α) (n : Nat),
    ((List.enumFrom n ((List.enumFrom n l).map f)).filter (fun ir => !q ir.1)).map Prod.snd =
      ((List.enumFrom n l).filter (fun ir => !q ir.1)).map f := by
  intro l
  induction l with
  | nil => intro n; rfl
  | cons a l2 ih =>
    intro n
    simp only [List.enumFrom, List.map_cons, List.filter_cons]
    cases hq : q n <;> simp [hq, ih (n + 1)]

theorem enum_eq_enumFrom {α : Type} (l : List α) : l.enum = List.enumFrom 0 l := rfl

theorem processTable_rows (repl : List (Str × Str)) (withData : List Nat) (table : Table) :
    (processTable repl withData table).rows =
      ((table.rows.enum).filter
        (fun ir => !((rowsToDelete withData table.rows).contains ir.1))).map
        (fun ir => Row.mk (ir.2.cells.map (processCell repl))) := by
  simp only [processTable]
  simp only [enum_eq_enumFrom]
  rw [enumFrom_map_filter]
  refine List.map_congr_left (fun ir hir => ?_)
  have h2 := (List.mem_filter.mp hir).2
  simp only [Bool.not_eq_true'] at h2
  rw [if_neg (show ¬ (rowsToDelete withData table.rows).contains ir.1 = true from by
    rw [h2]; decide)]

/-- Text of the single cell of the C3 demonstration rows: the slot-i COMPANY
and ROLE tokens joined by a dash. -/
def c3row (i : Nat) : Row :=
  ⟨[⟨[⟨[Run.mk (expTok i (str "COMPANY") ++ (str " - " ++ expTok i (str "ROLE"))) false]⟩]⟩]⟩

/-- Three-row table keyed to experience slots 1, 2 and 3. -/
def c3table : Table := ⟨[c3row 1, c3row 2, c3row 3]⟩

/-- Substituted text of the surviving C3 row. -/
def c3t1 : Str := str "<<<BOLD>>>Formation Bio<<<END_BOLD>>> - Engineer"

set_option maxRecDepth 100000 in
/-- C3: a table row whose concatenated cell text mentions a COMPANY, ROLE,
DURATION or RESP-prefixed placeholder of an experience slot outside the
data-bearing set is queued in the first pass, and the processed table
consists exactly of the cell-processed non-queued rows in order (queued rows
are removed in full, untouched by cell processing); in particular the
three-row table keyed to slots 1-3, against a record whose only data-bearing
slot is 1, keeps exactly one row and that row retains the slot-1 company. -/
theorem orphan_row_deletion (repl : List (Str × Str)) (withData : List Nat)
    (table : Table) (k : Nat) (row : Row) (hrow : table.rows[k]? = some row)
    (horphan : ∃ n : Nat, 1 ≤ n ∧ n ≤ 20 ∧
      contains_experience_placeholder (get_row_text row) n = true ∧
      withData.contains n = false) :
    (rowsToDelete withData table.rows).contains k = true ∧
    (processTable repl withData table).rows =
      ((table.rows.enum).filter
        (fun ir => !((rowsToDelete withData table.rows).contains ir.1))).map
        (fun ir => Row.mk (ir.2.cells.map (processCell repl))) ∧
    (processTable (all_repl c2recW) (experiences_with_data c2recW) c3table).rows.length = 1 ∧
    containsSub (str "Formation Bio")
      (get_row_text
        ((processTable (all_repl c2recW) (experiences_with_data c2recW) c3table).rows.getD 0
          default)) = true := by
  have hdel : rowsToDelete (experiences_with_data c2recW) c3table.rows = [1, 2] := by
    decide
  have h0 : applyRepl (basic_repl c2recW) (c3row 1).cells.head!.paras.head!.text =
      (c3row 1).cells.head!.paras.head!.text := applyRepl_no_match _ _ (by decide)
  have h1 : applyRepl (exp_slot_repl c2recW 1) (c3row 1).cells.head!.paras.head!.text =
      c3t1 := by decide
  have h2 : applyRepl ((List.range' 2 19).flatMap (exp_slot_repl c2recW)) c3t1 = c3t1 :=
    applyRepl_exp_flat_noBrace _ _ _ (by decide)
  have hexp : applyRepl (exp_repl c2recW) (c3row 1).cells.head!.paras.head!.text = c3t1 := by
    rw [exp_repl_cons, applyRepl_append, h1, h2]
  have happly : applyRepl (all_repl c2recW) (c3row 1).cells.head!.paras.head!.text = c3t1 := by
    rw [all_repl_eq, h0, hexp, edu_repl_noBrace _ _ (by decide),
      cert_repl_noBrace _ _ (by decide)]
  have hpara : processCellPara (all_repl c2recW) (c3row 1).cells.head!.paras.head! =
      (some ⟨boldSplitRuns c3t1⟩, []) := by
    simp only [processCellPara, happly]
    rw [if_neg (show ¬ containsSub DELETE_EXPERIENCE c3t1 = true from by decide)]
    rw [if_neg (show ¬ (containsSub REMOVE_THIS_LINE c3t1 &&
        (decide (pyStrip (if containsSub REMOVE_THIS_LINE c3t1 = true then
            replaceAll REMOVE_THIS_LINE [] c3t1 else c3t1) = []) ||
          decide (pyStrip (if containsSub REMOVE_THIS_LINE c3t1 = true then
            replaceAll REMOVE_THIS_LINE [] c3t1 else c3t1) = str "-") ||
          decide (pyStrip (if containsSub REMOVE_THIS_LINE c3t1 = true then
            replaceAll REMOVE_THIS_LINE [] c3t1 else c3t1) = str "•"))) = true from by
      decide)]
    rw [if_pos (show (if containsSub REMOVE_THIS_LINE c3t1 = true then
        replaceAll REMOVE_THIS_LINE [] c3t1 else c3t1) ≠
        (c3row 1).cells.head!.paras.head!.text from by decide)]
    rw [if_neg (show ¬ pyStrip (if containsSub REMOVE_THIS_LINE c3t1 = true then
        replaceAll REMOVE_THIS_LINE [] c3t1 else c3t1) = str "-" from by decide)]
    rw [if_pos (show (containsSub BOLD_OPEN (if containsSub REMOVE_THIS_LINE c3t1 = true then
          replaceAll REMOVE_THIS_LINE [] c3t1 else c3t1) &&
        containsSub BOLD_CLOSE (if containsSub REMOVE_THIS_LINE c3t1 = true then
          replaceAll REMOVE_THIS_LINE [] c3t1 else c3t1)) = true from by decide)]
    decide
  refine ⟨?_, processTable_rows repl withData table, ?_, ?_⟩
  · rcases horphan with ⟨n, hn1, hn2, hcp, hnd⟩
    refine List.elem_iff.mpr (List.mem_map.mpr ⟨(k, row),
      List.mem_filter.mpr ⟨List.mem_enum_iff_getElem?.mpr hrow, ?_⟩, rfl⟩)
    refine List.any_eq_true.mpr ⟨n, List.mem_range'.mpr ⟨n - 1, by omega, by omega⟩, ?_⟩
    rw [hcp, hnd]
    rfl
  · rw [processTable_rows, hdel]
    rfl
  · rw [processTable_rows, hdel]
    have hr1 : ((c3table.rows.enum.filter (fun ir => !([1, 2].contains ir.1))).map
        (fun ir => Row.mk (ir.2.cells.map (processCell (all_repl c2recW))))).getD 0 default =
        Row.mk [processCell (all_repl c2recW) (c3row 1).cells.head!] := rfl
    rw [hr1]
    have hcell : processCell (all_repl c2recW) (c3row 1).cells.head! =
        ⟨[⟨boldSplitRuns c3t1⟩]⟩ := by
      simp only [processCell]
      rw [show (c3row 1).cells.head!.paras = [(c3row 1).cells.head!.paras.head!] from rfl,
        List.map_cons, List.map_nil, hpara]
      rfl
    rw [hcell]
    decide

/-- Witness for the C3 theorem: in the three-row table, row index 1 carries
slot-2 tokens, slot 2 is outside the data-bearing set `[1]`, and the theorem
queues that row. -/
theorem orphan_row_deletion_witness :
    c3table.rows[1]? = some (c3row 2) ∧
    (rowsToDelete [1] c3table.rows).contains 1 = true :=
  ⟨by decide, (orphan_row_deletion [] [1] c3table 1 (c3row 2) (by decide)
    ⟨2, by decide, by decide, by decide, by decide⟩).1⟩

/-- Record with no certifications and no education used in the C5 scenario. -/
def c5rec : Record := ⟨str "Jane Doe", [], [], [], [], [], [], [], [], [], []⟩

/-- Template with a name line and CERT1/CERT2/EDU1/EDU2 bullet lines. -/
def c5doc : Doc :=
  ⟨[⟨[Run.mk (str "Name: \x7b\x7bCANDIDATE_NAME\x7d\x7d") false]⟩,
    ⟨[Run.mk (str "• \x7b\x7bCERT1_NAME\x7d\x7d") false]⟩,
    ⟨[Run.mk (str "• \x7b\x7bCERT2_NAME\x7d\x7d") false]⟩,
    ⟨[Run.mk (str "• \x7b\x7bEDU1_INSTITUTION\x7d\x7d") false]⟩,
    ⟨[Run.mk (str "• \x7b\x7bEDU2_INSTITUTION\x7d\x7d") false]⟩], []⟩

theorem c5_apply_name :
    applyRepl (all_repl c5rec) (str "Name: \x7b\x7bCANDIDATE_NAME\x7d\x7d") =
      str "Name: Jane Doe" := by
  rw [all_repl_eq,
    show applyRepl (basic_repl c5rec) (str "Name: \x7b\x7bCANDIDATE_NAME\x7d\x7d") =
      str "Name: Jane Doe" from by decide,
    applyRepl_exp_noop _ _ (by decide), applyRepl_edu_noop _ _ (by decide),
    applyRepl_cert_noop _ _ (by decide)]

theorem c5_apply_cert1 :
    applyRepl (all_repl c5rec) (str "• \x7b\x7bCERT1_NAME\x7d\x7d") =
      str "• <<<REMOVE_THIS_LINE>>>" := by
  rw [all_repl_eq,
    show applyRepl (basic_repl c5rec) (str "• \x7b\x7bCERT1_NAME\x7d\x7d") =
      str "• \x7b\x7bCERT1_NAME\x7d\x7d" from applyRepl_no_match _ _ (by decide),
    applyRepl_exp_noop _ _ (by decide), applyRepl_edu_noop _ _ (by decide),
    show applyRepl (cert_repl c5rec) (str "• \x7b\x7bCERT1_NAME\x7d\x7d") =
      str "• <<<REMOVE_THIS_LINE>>>" from by decide]

theorem c5_apply_cert2 :
    applyRepl (all_repl c5rec) (str "• \x7b\x7bCERT2_NAME\x7d\x7d") =
      str "• <<<REMOVE_THIS_LINE>>>" := by
  rw [all_repl_eq,
    show applyRepl (basic_repl c5rec) (str "• \x7b\x7bCERT2_NAME\x7d\x7d") =
      str "• \x7b\x7bCERT2_NAME\x7d\x7d" from applyRepl_no_match _ _ (by decide),
    applyRepl_exp_noop _ _ (by decide), applyRepl_edu_noop _ _ (by decide),
    show applyRepl (cert_repl c5rec) (str "• \x7b\x7bCERT2_NAME\x7d\x7d") =
      str "• <<<REMOVE_THIS_LINE>>>" from by decide]

theorem c5_apply_edu1 :
    applyRepl (all_repl c5rec) (str "• \x7b\x7bEDU1_INSTITUTION\x7d\x7d") =
      str "• <<<REMOVE_THIS_LINE>>>" := by
  rw [all_repl_eq,
    show applyRepl (basic_repl c5rec) (str "• \x7b\x7bEDU1_INSTITUTION\x7d\x7d") =
      str "• \x7b\x7bEDU1_INSTITUTION\x7d\x7d" from applyRepl_no_match _ _ (by decide),
    applyRepl_exp_noop _ _ (by decide),
    show applyRepl (edu_repl c5rec) (str "• \x7b\x7bEDU1_INSTITUTION\x7d\x7d") =
      str "• <<<REMOVE_THIS_LINE>>>" from by decide,
    applyRepl_cert_noop _ _ (by decide)]

theorem c5_apply_edu2 :
    applyRepl (all_repl c5rec) (str "• \x7b\x7bEDU2_INSTITUTION\x7d\x7d") =
      str "• <<<REMOVE_THIS_LINE>>>" := by
  rw [all_repl_eq,
    show applyRepl (basic_repl c5rec) (str "• \x7b\x7bEDU2_INSTITUTION\x7d\x7d") =
      str "• \x7b\x7bEDU2_INSTITUTION\x7d\x7d" from applyRepl_no_match _ _ (by decide),
    applyRepl_exp_noop _ _ (by decide),
    show applyRepl (edu_repl c5rec) (str "• \x7b\x7bEDU2_INSTITUTION\x7d\x7d") =
      str "• <<<REMOVE_THIS_LINE>>>" from by decide,
    applyRepl_cert_noop _ _ (by decide)]

theorem c5_pp1 :
    processPara (all_repl c5rec)
      ⟨[Run.mk (str "Name: \x7b\x7bCANDIDATE_NAME\x7d\x7d") false]⟩ =
      some ⟨[Run.mk (str "Name: Jane Doe") false]⟩ := by
  have hpt : (⟨[Run.mk (str "Name: \x7b\x7bCANDIDATE_NAME\x7d\x7d") false]⟩ : Para).text =
      str "Name: \x7b\x7bCANDIDATE_NAME\x7d\x7d" := by decide
  simp only [processPara, hpt, c5_apply_name]
  decide

theorem c5_pp2 :
    processPara (all_repl c5rec)
      ⟨[Run.mk (str "• \x7b\x7bCERT1_NAME\x7d\x7d") false]⟩ = none := by
  have hpt : (⟨[Run.mk (str "• \x7b\x7bCERT1_NAME\x7d\x7d") false]⟩ : Para).text =
      str "• \x7b\x7bCERT1_NAME\x7d\x7d" := by decide
  simp only [processPara, hpt, c5_apply_cert1]
  decide

theorem c5_pp3 :
    processPara (all_repl c5rec)
      ⟨[Run.mk (str "• \x7b\x7bCERT2_NAME\x7d\x7d") false]⟩ = none := by
  have hpt : (⟨[Run.mk (str "• \x7b\x7bCERT2_NAME\x7d\x7d") false]⟩ : Para).text =
      str "• \x7b\x7bCERT2_NAME\x7d\x7d" := by decide
  simp only [processPara, hpt, c5_apply_cert2]
  decide

theorem c5_pp4 :
    processPara (all_repl c5rec)
      ⟨[Run.mk (str "• \x7b\x7bEDU1_INSTITUTION\x7d\x7d") false]⟩ = none := by
  have hpt : (⟨[Run.mk (str "• \x7b\x7bEDU1_INSTITUTION\x7d\x7d") false]⟩ : Para).text =
      str "• \x7b\x7bEDU1_INSTITUTION\x7d\x7d" := by decide
  simp only [processPara, hpt, c5_apply_edu1]
  decide

theorem c5_pp5 :
    processPara (all_repl c5rec)
      ⟨[Run.mk (str "• \x7b\x7bEDU2_INSTITUTION\x7d\x7d") false]⟩ = none := by
  have hpt : (⟨[Run.mk (str "• \x7b\x7bEDU2_INSTITUTION\x7d\x7d") false]⟩ : Para).text =
      str "• \x7b\x7bEDU2_INSTITUTION\x7d\x7d" := by decide
  simp only [processPara, hpt, c5_apply_edu2]
  decide

set_option maxRecDepth 100000 in
/-- C5: when a substituted top-level paragraph contains the line-deletion
sentinel and not the section-deletion sentinel, the sentinel is stripped and
the paragraph is removed if and only if the stripped text trims to empty,
"-" or "•"; a kept paragraph (when no bold-span markers are present) carries
exactly the shortened text; and the empty-certifications, empty-education
record against the CERT1/CERT2/EDU1/EDU2 template yields only the name line:
no leftover tokens, empty lines or lone bullets. -/
theorem remove_sentinel_paragraphs (repl : List (Str × Str)) (p : Para)
    (hdel : containsSub DELETE_EXPERIENCE (applyRepl repl p.text) = false)
    (hrem : containsSub REMOVE_THIS_LINE (applyRepl repl p.text) = true) :
    (processPara repl p = none ↔
      (pyStrip (replaceAll REMOVE_THIS_LINE [] (applyRepl repl p.text)) = [] ∨
       pyStrip (replaceAll REMOVE_THIS_LINE [] (applyRepl repl p.text)) = str "-" ∨
       pyStrip (replaceAll REMOVE_THIS_LINE [] (applyRepl repl p.text)) = str "•")) ∧
    (∀ q : Para, processPara repl p = some q →
      (containsSub BOLD_OPEN (replaceAll REMOVE_THIS_LINE [] (applyRepl repl p.text)) &&
        containsSub BOLD_CLOSE (replaceAll REMOVE_THIS_LINE [] (applyRepl repl p.text)))
          = false →
      q.text = replaceAll REMOVE_THIS_LINE [] (applyRepl repl p.text)) ∧
    (fill_template c5doc c5rec).paragraphs.map Para.text = [str "Name: Jane Doe"] := by
  refine ⟨?_, ?_, ?_⟩
  · simp only [processPara]
    rw [if_neg (show ¬ containsSub DELETE_EXPERIENCE (applyRepl repl p.text) = true from by
      rw [hdel]; decide)]
    simp only [if_pos hrem]
    simp only [hrem, Bool.true_and]
    constructor
    · intro hn
      split at hn
      · rename_i hC
        simpa only [Bool.or_eq_true, decide_eq_true_eq, or_assoc] using hC
      · split at hn
        · exact Option.noConfusion hn
        · exact Option.noConfusion hn
    · intro hs
      split
      · rfl
      · rename_i hC
        exact (hC (by rcases hs with h | h | h <;> simp [h])).elim
  · intro q hq hb
    simp only [processPara] at hq
    rw [if_neg (show ¬ containsSub DELETE_EXPERIENCE (applyRepl repl p.text) = true from by
      rw [hdel]; decide)] at hq
    simp only [if_pos hrem] at hq
    simp only [hrem, Bool.true_and] at hq
    split at hq
    · exact Option.noConfusion hq
    · rename_i hC
      split at hq
      · have hs2 : ¬ pyStrip (replaceAll REMOVE_THIS_LINE [] (applyRepl repl p.text)) =
            str "-" := by
          intro h
          exact hC (by simp [h])
        rw [if_neg hs2,
          if_neg (show ¬ (containsSub BOLD_OPEN
              (replaceAll REMOVE_THIS_LINE [] (applyRepl repl p.text)) &&
            containsSub BOLD_CLOSE
              (replaceAll REMOVE_THIS_LINE [] (applyRepl repl p.text))) = true from by
            rw [hb]; decide)] at hq
        rw [← Option.some.inj hq]
        simp [Para.text]
      · rename_i hne
        rw [← Option.some.inj hq]
        exact (not_not.mp hne).symm
  · simp only [fill_template]
    rw [show c5doc.paragraphs =
        (⟨[Run.mk (str "Name: \x7b\x7bCANDIDATE_NAME\x7d\x7d") false]⟩ : Para) ::
        (⟨[Run.mk (str "• \x7b\x7bCERT1_NAME\x7d\x7d") false]⟩ : Para) ::
        (⟨[Run.mk (str "• \x7b\x7bCERT2_NAME\x7d\x7d") false]⟩ : Para) ::
        (⟨[Run.mk (str "• \x7b\x7bEDU1_INSTITUTION\x7d\x7d") false]⟩ : Para) ::
        [(⟨[Run.mk (str "• \x7b\x7bEDU2_INSTITUTION\x7d\x7d") false]⟩ : Para)] from rfl,
      List.filterMap_cons_some c5_pp1, List.filterMap_cons_none c5_pp2,
      List.filterMap_cons_none c5_pp3, List.filterMap_cons_none c5_pp4,
      List.filterMap_cons_none c5_pp5, List.filterMap_nil]
    decide

/-- Witness for the C5 theorem: a one-entry dict sends the only token to the
line-deletion sentinel; the stripped text trims to a lone bullet, so the
paragraph is removed. -/
theorem remove_sentinel_paragraphs_witness :
    processPara [(str "\x7b\x7bX\x7d\x7d", REMOVE_THIS_LINE)]
      ⟨[Run.mk (str "• \x7b\x7bX\x7d\x7d") false]⟩ = none :=
  (remove_sentinel_paragraphs [(str "\x7b\x7bX\x7d\x7d", REMOVE_THIS_LINE)]
      ⟨[Run.mk (str "• \x7b\x7bX\x7d\x7d") false]⟩ (by decide) (by decide)).1.mpr
    (Or.inr (Or.inr (by decide)))

theorem bullet_prefix_dead (s : Str) (h : (str "Project Name:").isPrefixOf s = true) :
    (str "• ").isPrefixOf s = false := by
  cases s with
  | nil => exact absurd h (by decide)
  | cons c cs =>
    have hcp : c = 'P' := by
      rw [show (str "Project Name:") = 'P' :: str "roject Name:" from rfl,
        List.isPrefixOf] at h
      simp only [Bool.and_eq_true, beq_iff_eq] at h
      exact h.1.symm
    subst hcp
    rw [show (str "• ") = '•' :: str " " from rfl, List.isPrefixOf,
      show (('•' == 'P') : Bool) = false from rfl, Bool.false_and]

/-- C8 (amended): the "Project Name:"-with-"Location:" special case lives in
table-cell scope only.  A changed, sentinel-free, marker-free, single-line
cell paragraph is rendered through `singleLineRun`; `singleLineRun` and
`cellLineRun` yield the line verbatim with the bold flag set exactly when
the trimmed text starts with "Project Name:" and contains "Location:" (the
"Duration:" test adds nothing); and the leading-bullet strip is dead code,
since a line whose trimmed text starts with "Project Name:" cannot also
start with the bullet prefix.  Top-level paragraph scope has no such case,
and a text carrying bold-span markers takes the marker branch instead — see
the counterexample. -/
theorem project_name_cell_rendering (repl : List (Str × Str)) (p : Para)
    (hdel : containsSub DELETE_EXPERIENCE (applyRepl repl p.text) = false)
    (hrem : containsSub REMOVE_THIS_LINE (applyRepl repl p.text) = false)
    (hch : applyRepl repl p.text ≠ p.text)
    (hsd : pyStrip (applyRepl repl p.text) ≠ str "-")
    (hnb : (containsSub BOLD_OPEN (applyRepl repl p.text) &&
        containsSub BOLD_CLOSE (applyRepl repl p.text)) = false)
    (hnl : containsSub (str "\n") (applyRepl repl p.text) = false) :
    processCellPara repl p = (some ⟨[singleLineRun (applyRepl repl p.text)]⟩, []) ∧
    (∀ t : Str, singleLineRun t = Run.mk t
      ((str "Project Name:").isPrefixOf (pyStrip t) &&
        containsSub (str "Location:") (pyStrip t))) ∧
    (∀ line : Str, cellLineRun line = Run.mk line
      ((str "Project Name:").isPrefixOf (pyStrip line) &&
        containsSub (str "Location:") (pyStrip line))) ∧
    (∀ s : Str, (str "Project Name:").isPrefixOf s = true →
      (str "• ").isPrefixOf s = false) := by
  refine ⟨?_, ?_, ?_, fun s h => bullet_prefix_dead s h⟩
  · simp only [processCellPara]
    rw [if_neg (show ¬ containsSub DELETE_EXPERIENCE (applyRepl repl p.text) = true from by
      rw [hdel]; decide)]
    simp only [if_neg (show ¬ containsSub REMOVE_THIS_LINE (applyRepl repl p.text) = true from by
      rw [hrem]; decide)]
    rw [if_neg (show ¬ (containsSub REMOVE_THIS_LINE (applyRepl repl p.text) &&
        (decide (pyStrip (applyRepl repl p.text) = []) ||
         decide (pyStrip (applyRepl repl p.text) = str "-") ||
         decide (pyStrip (applyRepl repl p.text) = str "•"))) = true from by
      rw [hrem]; simp)]
    rw [if_pos hch, if_neg hsd,
      if_neg (show ¬ (containsSub BOLD_OPEN (applyRepl repl p.text) &&
          containsSub BOLD_CLOSE (applyRepl repl p.text)) = true from by
        rw [hnb]; decide),
      if_neg (show ¬ containsSub (str "\n") (applyRepl repl p.text) = true from by
        rw [hnl]; decide)]
  · intro t
    cases hA : (str "Project Name:").isPrefixOf (pyStrip t) <;>
      cases hB : containsSub (str "Location:") (pyStrip t) <;>
        cases hC : containsSub (str "Duration:") (pyStrip t) <;>
          simp [singleLineRun, hA, hB, hC, bullet_prefix_dead]
  · intro line
    cases hA : (str "Project Name:").isPrefixOf (pyStrip line) <;>
      cases hB : containsSub (str "Location:") (pyStrip line) <;>
        cases hC : containsSub (str "Duration:") (pyStrip line) <;>
          simp [cellLineRun, hA, hB, hC]

/-- Counterexample to C8 as stated: in top-level paragraph scope a line whose
trimmed text starts with "Project Name:" and contains "Location:" is kept as
a single run with bold set to false — the special case does not apply to
paragraph scope. -/
theorem project_name_claim_counterexample :
    (str "Project Name:").isPrefixOf
      (pyStrip (str "Project Name: Jane Doe, Location: X")) = true ∧
    containsSub (str "Location:") (str "Project Name: Jane Doe, Location: X") = true ∧
    processPara [(str "\x7b\x7bCANDIDATE_NAME\x7d\x7d", str "Jane Doe")]
      ⟨[Run.mk (str "Project Name: \x7b\x7bCANDIDATE_NAME\x7d\x7d, Location: X") false]⟩ =
      some ⟨[Run.mk (str "Project Name: Jane Doe, Location: X") false]⟩ := by
  refine ⟨by decide, by decide, ?_⟩
  decide

/-- Witness for the C8 theorem: in cell scope the substituted Project-Name
line is rendered as a single fully-bold run with its text unchanged. -/
theorem project_name_cell_rendering_witness :
    singleLineRun (str "Project Name: Jane Doe, Location: X") =
      Run.mk (str "Project Name: Jane Doe, Location: X") true := by
  rw [(project_name_cell_rendering [(str "\x7b\x7bCANDIDATE_NAME\x7d\x7d", str "Jane Doe")]
    ⟨[Run.mk (str "Project Name: \x7b\x7bCANDIDATE_NAME\x7d\x7d, Location: X") false]⟩
    (by decide) (by decide) (by decide) (by decide) (by decide) (by decide)).2.1]
  decide

/-- Embedding of `has_formation_bio_experience` (streamlit_app.py lines
35-42): some experience's lower-cased company contains both "formation" and
"bio". -/
def has_formation_bio_experience (d : Record) : Bool :=
  d.experiences.any (fun exp =>
    containsSub (str "formation") (toLowerStr exp.company) &&
    containsSub (str "bio") (toLowerStr exp.company))

/-- Embedding of `has_education` (streamlit_app.py lines 44-47): a non-empty
education list with some entry whose degree or institution is truthy. -/
def has_education (d : Record) : Bool :=
  decide (0 < d.education.length) &&
    d.education.any (fun edu => decide (edu.degree ≠ []) || decide (edu.institution ≠ []))

/-- C9: `has_formation_bio_experience` holds iff some experience's
lower-cased company contains both "formation" and "bio", and `has_education`
holds iff some education entry has a non-empty degree or a non-empty
institution (the length guard in the source is subsumed by the existential). -/
theorem streamlit_predicates (d : Record) :
    (has_formation_bio_experience d = true ↔
      ∃ exp ∈ d.experiences,
        containsSub (str "formation") (toLowerStr exp.company) = true ∧
        containsSub (str "bio") (toLowerStr exp.company) = true) ∧
    (has_education d = true ↔
      ∃ edu ∈ d.education, edu.degree ≠ [] ∨ edu.institution ≠ []) := by
  constructor
  · rw [has_formation_bio_experience, List.any_eq_true]
    simp only [Bool.and_eq_true]
  · rw [has_education]
    simp only [Bool.and_eq_true, decide_eq_true_eq, List.any_eq_true, Bool.or_eq_true]
    constructor
    · rintro ⟨_, e, he, hd⟩
      exact ⟨e, he, hd⟩
    · rintro ⟨e, he, hd⟩
      exact ⟨List.length_pos.mpr (List.ne_nil_of_mem he), e, he, hd⟩

/-- Template holding only the slot-1 LOCATION token inside a table cell. -/
def c1doc : Doc :=
  ⟨[], [⟨[⟨[⟨[⟨[Run.mk (str "\x7b\x7bEXP1_LOCATION\x7d\x7d") false]⟩]⟩]⟩]⟩]⟩

set_option maxRecDepth 100000 in
theorem c1_apply_loc :
    applyRepl (all_repl c5rec) (str "\x7b\x7bEXP1_LOCATION\x7d\x7d") =
      DELETE_EXPERIENCE := by
  rw [all_repl_eq,
    show applyRepl (basic_repl c5rec) (str "\x7b\x7bEXP1_LOCATION\x7d\x7d") =
      str "\x7b\x7bEXP1_LOCATION\x7d\x7d" from applyRepl_no_match _ _ (by decide),
    exp_repl_cons, applyRepl_append,
    show applyRepl (exp_slot_repl c5rec 1) (str "\x7b\x7bEXP1_LOCATION\x7d\x7d") =
      DELETE_EXPERIENCE from by decide,
    applyRepl_exp_flat_noBrace _ _ _ (by decide),
    edu_repl_noBrace _ _ (by decide), cert_repl_noBrace _ _ (by decide)]

/-- C1 (code bug): the template whose only token is the slot-1 LOCATION
placeholder, filled from a validated record with no experiences, keeps the
literal token in the output table cell — `contains_experience_placeholder`
checks COMPANY, ROLE, DURATION and the RESP prefix but not LOCATION, so the
row is not queued for deletion, and the per-cell pass skips the paragraph
when the substituted text carries the section-deletion sentinel, leaving the
original text in place; the output therefore contains a residual brace pair,
contradicting the zero-residual-marker postcondition. -/
theorem residual_brace_bug :
    rowsToDelete (experiences_with_data c5rec)
      [⟨[⟨[⟨[Run.mk (str "\x7b\x7bEXP1_LOCATION\x7d\x7d") false]⟩]⟩]⟩] = [] ∧
    (fill_template c1doc c5rec).tables =
      [⟨[⟨[⟨[⟨[Run.mk (str "\x7b\x7bEXP1_LOCATION\x7d\x7d") false]⟩]⟩]⟩]⟩] ∧
    containsSub (str "\x7b\x7b")
      (get_row_text
        (((fill_template c1doc c5rec).tables.getD 0 default).rows.getD 0 default)) =
      true := by
  have hdel : rowsToDelete (experiences_with_data c5rec)
      [⟨[⟨[⟨[Run.mk (str "\x7b\x7bEXP1_LOCATION\x7d\x7d") false]⟩]⟩]⟩] = [] := by decide
  have hpt : Para.text ⟨[Run.mk (str "\x7b\x7bEXP1_LOCATION\x7d\x7d") false]⟩ =
      str "\x7b\x7bEXP1_LOCATION\x7d\x7d" := by decide
  have hpara : processCellPara (all_repl c5rec)
      ⟨[Run.mk (str "\x7b\x7bEXP1_LOCATION\x7d\x7d") false]⟩ =
      (some ⟨[Run.mk (str "\x7b\x7bEXP1_LOCATION\x7d\x7d") false]⟩, []) := by
    simp only [processCellPara, hpt, c1_apply_loc]
    rw [if_pos (show containsSub DELETE_EXPERIENCE DELETE_EXPERIENCE = true from by decide)]
  have hcell : processCell (all_repl c5rec)
      ⟨[⟨[Run.mk (str "\x7b\x7bEXP1_LOCATION\x7d\x7d") false]⟩]⟩ =
      ⟨[⟨[Run.mk (str "\x7b\x7bEXP1_LOCATION\x7d\x7d") false]⟩]⟩ := by
    simp only [processCell, List.map_cons, List.map_nil, hpara]
    rfl
  have hrows : (processTable (all_repl c5rec) (experiences_with_data c5rec)
      ⟨[⟨[⟨[⟨[Run.mk (str "\x7b\x7bEXP1_LOCATION\x7d\x7d") false]⟩]⟩]⟩]⟩).rows =
      [⟨[⟨[⟨[Run.mk (str "\x7b\x7bEXP1_LOCATION\x7d\x7d") false]⟩]⟩]⟩] := by
    rw [processTable_rows, hdel]
    show [(⟨[processCell (all_repl c5rec)
      ⟨[⟨[Run.mk (str "\x7b\x7bEXP1_LOCATION\x7d\x7d") false]⟩]⟩]⟩ : Row)] = _
    rw [hcell]
  have htab : (fill_template c1doc c5rec).tables =
      [⟨[⟨[⟨[⟨[Run.mk (str "\x7b\x7bEXP1_LOCATION\x7d\x7d") false]⟩]⟩]⟩]⟩] := by
    show [Table.mk (processTable (all_repl c5rec) (experiences_with_data c5rec)
      ⟨[⟨[⟨[⟨[Run.mk (str "\x7b\x7bEXP1_LOCATION\x7d\x7d") false]⟩]⟩]⟩]⟩).rows] = _
    rw [hrows]
  refine ⟨hdel, htab, ?_⟩
  rw [htab]
  decide

/-- Python value as handled by `CVExtractor._validate_data`
(extraction.py lines 140-218). -/
inductive PyVal : Type where
  | pyStr : Str → PyVal
  | pyInt : Int → PyVal
  | pyBool : Bool → PyVal
  | pyNone : PyVal
  | pyList : List PyVal → PyVal
  | pyDict : List (Str × PyVal) → PyVal

/-- Python truthiness. -/
def truthy : PyVal → Bool
  | .pyStr s => decide (s ≠ [])
  | .pyInt n => decide (n ≠ 0)
  | .pyBool b => b
  | .pyNone => false
  | .pyList l => !l.isEmpty
  | .pyDict d => !d.isEmpty

/-- First-match lookup in a dict; keys are assigned at most once in the
dicts handled here, so this coincides with Python dict lookup. -/
def dlookup : List (Str × PyVal) → Str → Option PyVal
  | [], _ => none
  | pv :: d, k => if pv.1 = k then some pv.2 else dlookup d k

/-- Python `d.get(k)` (defaulting to `None`). -/
def dget (d : List (Str × PyVal)) (k : Str) : PyVal := (dlookup d k).getD .pyNone

/-- Python `k in d` for a dict. -/
def dmem (d : List (Str × PyVal)) (k : Str) : Bool := (dlookup d k).isSome

/-- Python `d[k] = v`: replace in place, or append a new key at the end. -/
def dset : List (Str × PyVal) → Str → PyVal → List (Str × PyVal)
  | [], k, v => [(k, v)]
  | pv :: d, k, v => if pv.1 = k then (k, v) :: d else pv :: dset d k v

/-- Python `v == s` for a string literal `s`: equal only to an equal
string. -/
def pyEqStr (v : PyVal) (s : Str) : Bool :=
  match v with
  | .pyStr s2 => decide (s2 = s)
  | _ => false

/-- Python `k in v` for a string key: dict-key test, substring test on
strings, membership on lists; `TypeError` otherwise. -/
def pyIn (k : Str) : PyVal → Except Unit Bool
  | .pyDict d => .ok (dmem d k)
  | .pyStr s => .ok (containsSub k s)
  | .pyList l => .ok (l.any (fun v => pyEqStr v k))
  | _ => .error ()

/-- Python `v[k]` for a string key: dict lookup (`KeyError` when absent);
`TypeError` on every other type. -/
def pyGetItem : PyVal → Str → Except Unit PyVal
  | .pyDict d, k =>
    match dlookup d k with
    | some v => .ok v
    | none => .error ()
  | _, _ => .error ()

/-- Python `v[k] = x` for a string key: dict assignment; `TypeError`
otherwise. -/
def pySetItem : PyVal → Str → PyVal → Except Unit PyVal
  | .pyDict d, k, x => .ok (.pyDict (dset d k x))
  | _, _, _ => .error ()

/-- `format_name`/`format_duration` call their argument's string methods:
anything but a string raises (`AttributeError`/`TypeError`). -/
def asStr : PyVal → Except Unit Str
  | .pyStr s => .ok s
  | _ => .error ()

/-- Python `for x in v`: lists yield elements, strings one-character
strings, dicts their keys; other types raise `TypeError`. -/
def pyIter : PyVal → Except Unit (List PyVal)
  | .pyList l => .ok l
  | .pyStr s => .ok (s.map (fun c => .pyStr [c]))
  | .pyDict d => .ok (d.map (fun pv => .pyStr pv.1))
  | _ => .error ()

/-- First experiences loop (extraction.py lines 160-166): format role and
duration when present. -/
def vexp1 (i : Nat) (exp : PyVal) : Except Unit PyVal := do
  let hasRole ← pyIn (str "role") exp
  let exp2 ←
    if hasRole then do
      let rv ← pyGetItem exp (str "role")
      let s ← asStr rv
      pySetItem exp (str "role") (.pyStr (format_name s))
    else pure exp
  let hasDur ← pyIn (str "duration") exp2
  if hasDur then do
    let dv ← pyGetItem exp2 (str "duration")
    let s ← asStr dv
    pySetItem exp2 (str "duration") (.pyStr (format_duration s (decide (i = 0))))
  else pure exp2

def vexps1 : Nat → List PyVal → Except Unit (List PyVal)
  | _, [] => pure []
  | i, e :: es => do
    let e2 ← vexp1 i e
    let es2 ← vexps1 (i + 1) es
    pure (e2 :: es2)

/-- One backfill step `if k not in d or not d[k]: d[k] = x` shared by the
second experiences loop and the education/certifications loops. -/
def backfill (k : Str) (x : PyVal) (v : PyVal) : Except Unit PyVal := do
  let hasK ← pyIn k v
  let keep ←
    if hasK then do
      let w ← pyGetItem v k
      pure (truthy w)
    else pure false
  if keep then pure v else pySetItem v k x

/-- Second experiences loop body (extraction.py lines 169-177). -/
def vexp2 (exp : PyVal) : Except Unit PyVal := do
  let e1 ← backfill (str "company") (.pyStr []) exp
  let e2 ← backfill (str "role") (.pyStr []) e1
  let e3 ← backfill (str "duration") (.pyStr []) e2
  let hasR ← pyIn (str "responsibilities") e3
  let isL ←
    if hasR then do
      let w ← pyGetItem e3 (str "responsibilities")
      pure (match w with | .pyList _ => true | _ => false)
    else pure false
  if isL then pure e3 else pySetItem e3 (str "responsibilities") (.pyList [])

def vexps2 : List PyVal → Except Unit (List PyVal)
  | [] => pure []
  | e :: es => do
    let e2 ← vexp2 e
    let es2 ← vexps2 es
    pure (e2 :: es2)

/-- Education loop body (extraction.py lines 187-196): institution and
degree backfilled, a truthy duration formatted, a falsy one backfilled. -/
def vedu (edu : PyVal) : Except Unit PyVal := do
  let e1 ← backfill (str "institution") (.pyStr []) edu
  let hasD ← pyIn (str "duration") e1
  let keepD ←
    if hasD then do
      let w ← pyGetItem e1 (str "duration")
      pure (truthy w)
    else pure false
  let e2 ←
    if keepD then do
      let dv ← pyGetItem e1 (str "duration")
      let s ← asStr dv
      pySetItem e1 (str "duration") (.pyStr (format_duration s false))
    else pySetItem e1 (str "duration") (.pyStr [])
  backfill (str "degree") (.pyStr []) e2

def vedus : List PyVal → Except Unit (List PyVal)
  | [] => pure []
  | e :: es => do
    let e2 ← vedu e
    let es2 ← vedus es
    pure (e2 :: es2)

/-- Certifications loop body (extraction.py lines 207-216). -/
def vcert (cert : PyVal) : Except Unit PyVal := do
  let c1 ← backfill (str "name") (.pyStr []) cert
  let c2 ← backfill (str "year") (.pyStr []) c1
  let c3 ← backfill (str "provider") (.pyStr []) c2
  backfill (str "location") (.pyStr []) c3

def vcerts : List PyVal → Except Unit (List PyVal)
  | [] => pure []
  | e :: es => do
    let e2 ← vcert e
    let es2 ← vcerts es
    pure (e2 :: es2)

/-- Candidate-name placeholder backfill (extraction.py lines 143-145). -/
def vPhase1 (d : List (Str × PyVal)) : List (Str × PyVal) :=
  if !truthy (dget d (str "candidate_name")) ||
      pyEqStr (dget d (str "candidate_name")) (str "Candidate Name Not Provided") then
    dset d (str "candidate_name") (.pyStr (str "Candidate Name Not Provided"))
  else d

/-- Candidate-name formatting (extraction.py lines 147-148). -/
def vPhase2 (d : List (Str × PyVal)) : Except Unit (List (Str × PyVal)) :=
  if dmem d (str "candidate_name") then do
    let s ← asStr (dget d (str "candidate_name"))
    pure (dset d (str "candidate_name") (.pyStr (format_name s)))
  else pure d

/-- Position formatting (extraction.py lines 150-151). -/
def vPhase3 (d : List (Str × PyVal)) : Except Unit (List (Str × PyVal)) :=
  if dmem d (str "position") then do
    let s ← asStr (dget d (str "position"))
    pure (dset d (str "position") (.pyStr (format_name s)))
  else pure d

/-- Language-skills default (extraction.py lines 153-155). -/
def vPhase4 (d : List (Str × PyVal)) : List (Str × PyVal) :=
  if !dmem d (str "language_skills") || !truthy (dget d (str "language_skills")) then
    dset d (str "language_skills") (.pyList [.pyStr (str "English - Fluent")])
  else d

/-- Experiences existence (extraction.py lines 157-159). -/
def vPhase5 (d : List (Str × PyVal)) : List (Str × PyVal) :=
  if !dmem d (str "experiences") then dset d (str "experiences") (.pyList []) else d

/-- First experiences loop (extraction.py lines 161-166): iterate the value
(raising on a non-iterable), format roles and durations; the in-place
mutation of a list is the write-back of the transformed list. -/
def vPhase6 (d : List (Str × PyVal)) : Except Unit (List (Str × PyVal)) := do
  let items ← pyIter (dget d (str "experiences"))
  let items1 ← vexps1 0 items
  pure (match dget d (str "experiences") with
    | .pyList _ => dset d (str "experiences") (.pyList items1)
    | _ => d)

/-- Second experiences loop (extraction.py lines 168-177). -/
def vPhase7 (d : List (Str × PyVal)) : Except Unit (List (Str × PyVal)) := do
  let items ← pyIter (dget d (str "experiences"))
  let items2 ← vexps2 items
  pure (match dget d (str "experiences") with
    | .pyList _ => dset d (str "experiences") (.pyList items2)
    | _ => d)

/-- Education existence and isinstance guard (extraction.py lines 179-185):
a non-list education value is replaced by the empty list. -/
def vPhase8 (d : List (Str × PyVal)) : List (Str × PyVal) :=
  let d2 := if !dmem d (str "education") then dset d (str "education") (.pyList []) else d
  match dget d2 (str "education") with
  | .pyList _ => d2
  | _ => dset d2 (str "education") (.pyList [])

/-- Education loop (extraction.py lines 186-196). -/
def vPhase9 (d : List (Str × PyVal)) : Except Unit (List (Str × PyVal)) := do
  let items ← pyIter (dget d (str "education"))
  let items2 ← vedus items
  pure (match dget d (str "education") with
    | .pyList _ => dset d (str "education") (.pyList items2)
    | _ => d)

/-- Certifications existence and isinstance guard (extraction.py lines
198-204). -/
def vPhase10 (d : List (Str × PyVal)) : List (Str × PyVal) :=
  let d2 :=
    if !dmem d (str "certifications") then dset d (str "certifications") (.pyList []) else d
  match dget d2 (str "certifications") with
  | .pyList _ => d2
  | _ => dset d2 (str "certifications") (.pyList [])

/-- Certifications loop (extraction.py lines 206-216). -/
def vPhase11 (d : List (Str × PyVal)) : Except Unit (List (Str × PyVal)) := do
  let items ← pyIter (dget d (str "certifications"))
  let items2 ← vcerts items
  pure (match dget d (str "certifications") with
    | .pyList _ => dset d (str "certifications") (.pyList items2)
    | _ => d)

/-- Embedding of `CVExtractor._validate_data` (extraction.py lines 140-218)
over a top-level mapping, as the sequence of its statement blocks.  Python
mutates the nested dicts and lists in place; this is modelled by writing the
transformed value back into the mapping, which yields the same final dict.
A `.error` result is a raised exception. -/
def validate_data (data0 : List (Str × PyVal)) : Except Unit (List (Str × PyVal)) := do
  let d2 ← vPhase2 (vPhase1 data0)
  let d3 ← vPhase3 d2
  let d6 ← vPhase6 (vPhase5 (vPhase4 d3))
  let d7 ← vPhase7 d6
  let d9 ← vPhase9 (vPhase8 d7)
  vPhase11 (vPhase10 d9)

theorem except_bind_ok {α β : Type} (a : α) (f : α → Except Unit β) :
    ((Except.ok a : Except Unit α) >>= f) = f a := rfl

theorem except_bind_error {α β : Type} (f : α → Except Unit β) :
    ((Except.error () : Except Unit α) >>= f) = .error () := rfl

theorem dset_self : ∀ (d : List (Str × PyVal)) (k : Str) (v : PyVal),
    dlookup d k = some v → dset d k v = d := by
  intro d
  induction d with
  | nil => intro k v h; exact Option.noConfusion h
  | cons pv d2 ih =>
    intro k v h
    rw [dlookup] at h
    rw [dset]
    by_cases hk : pv.1 = k
    · rw [if_pos hk] at h
      rw [if_pos hk, ← hk, ← Option.some.inj h]
    · rw [if_neg hk] at h
      rw [if_neg hk, ih k v h]

theorem backfill_keep (k : Str) (d : List (Str × PyVal)) (s : Str)
    (h : dlookup d k = some (.pyStr s)) :
    backfill k (.pyStr []) (.pyDict d) = .ok (.pyDict d) := by
  by_cases hs : s = []
  · subst hs
    simp [backfill, pyIn, dmem, pyGetItem, pySetItem, h, truthy,
      except_bind_ok, dset_self d k _ h]
  · simp [backfill, pyIn, dmem, pyGetItem, pySetItem, h, truthy, hs, except_bind_ok,
      pure, Except.pure]

/-- The `experiences` entry of a fully-shaped mapping. -/
def expToPy (e : Experience) : PyVal :=
  .pyDict [(str "company", .pyStr e.company), (str "location", .pyStr e.location),
    (str "role", .pyStr e.role), (str "duration", .pyStr e.duration),
    (str "responsibilities", .pyList (e.responsibilities.map .pyStr))]

/-- The `education` entry of a fully-shaped mapping. -/
def eduToPy (e : Education) : PyVal :=
  .pyDict [(str "institution", .pyStr e.institution), (str "duration", .pyStr e.duration),
    (str "degree", .pyStr e.degree)]

/-- The `certifications` entry of a fully-shaped mapping. -/
def certToPy (c : Certification) : PyVal :=
  .pyDict [(str "name", .pyStr c.name), (str "year", .pyStr c.year),
    (str "provider", .pyStr c.provider), (str "location", .pyStr c.location)]

/-- A fully-shaped input mapping: every field present with the type the
validator's happy path expects. -/
def recordToPy (r : Record) : List (Str × PyVal) :=
  [(str "candidate_name", .pyStr r.candidate_name),
   (str "position", .pyStr r.position),
   (str "total_experience_years", .pyStr r.total_experience_years),
   (str "phone", .pyStr r.phone),
   (str "email", .pyStr r.email),
   (str "intro_paragraph", .pyStr r.intro_paragraph),
   (str "experiences", .pyList (r.experiences.map expToPy)),
   (str "education", .pyList (r.education.map eduToPy)),
   (str "certifications", .pyList (r.certifications.map certToPy)),
   (str "technical_skills", .pyList (r.technical_skills.map .pyStr)),
   (str "language_skills", .pyList (r.language_skills.map .pyStr))]

/-- First-loop transform of one experience. -/
def expValidate1 (i : Nat) (e : Experience) : Experience :=
  { e with
    role := format_name e.role
    duration := format_duration e.duration (decide (i = 0)) }

/-- First-loop transform of the experiences list. -/
def expsValidate : Nat → List Experience → List Experience
  | _, [] => []
  | i, e :: es => expValidate1 i e :: expsValidate (i + 1) es

/-- Education transform: a truthy duration is formatted, a falsy one kept
(the backfilled empty string equals it). -/
def eduValidate (e : Education) : Education :=
  { e with duration :=
    if e.duration ≠ [] then format_duration e.duration false else e.duration }

theorem vexp1_expToPy (i : Nat) (e : Experience) :
    vexp1 i (expToPy e) = .ok (expToPy (expValidate1 i e)) := rfl

theorem vexps1_map : ∀ (l : List Experience) (i : Nat),
    vexps1 i (l.map expToPy) = .ok ((expsValidate i l).map expToPy) := by
  intro l
  induction l with
  | nil => intro i; rfl
  | cons e es ih =>
    intro i
    simp only [List.map_cons, vexps1, vexp1_expToPy, except_bind_ok, ih (i + 1)]
    rfl

theorem vexp2_expToPy (e : Experience) : vexp2 (expToPy e) = .ok (expToPy e) := by
  have h1 := backfill_keep (str "company")
    [(str "company", PyVal.pyStr e.company), (str "location", PyVal.pyStr e.location),
     (str "role", PyVal.pyStr e.role), (str "duration", PyVal.pyStr e.duration),
     (str "responsibilities", PyVal.pyList (e.responsibilities.map PyVal.pyStr))]
    e.company rfl
  have h2 := backfill_keep (str "role")
    [(str "company", PyVal.pyStr e.company), (str "location", PyVal.pyStr e.location),
     (str "role", PyVal.pyStr e.role), (str "duration", PyVal.pyStr e.duration),
     (str "responsibilities", PyVal.pyList (e.responsibilities.map PyVal.pyStr))]
    e.role rfl
  have h3 := backfill_keep (str "duration")
    [(str "company", PyVal.pyStr e.company), (str "location", PyVal.pyStr e.location),
     (str "role", PyVal.pyStr e.role), (str "duration", PyVal.pyStr e.duration),
     (str "responsibilities", PyVal.pyList (e.responsibilities.map PyVal.pyStr))]
    e.duration rfl
  simp only [vexp2, expToPy, except_bind_ok, h1, h2, h3]
  rfl

theorem vexps2_map : ∀ l : List Experience,
    vexps2 (l.map expToPy) = .ok (l.map expToPy) := by
  intro l
  induction l with
  | nil => rfl
  | cons e es ih =>
    simp only [List.map_cons, vexps2, vexp2_expToPy, except_bind_ok, ih]
    rfl

theorem except_bind_pure {α β : Type} (a : α) (f : α → Except Unit β) :
    ((pure a : Except Unit α) >>= f) = f a := rfl

theorem vedu_eduToPy (e : Education) : vedu (eduToPy e) = .ok (eduToPy (eduValidate e)) := by
  have h1 := backfill_keep (str "institution")
    [(str "institution", PyVal.pyStr e.institution),
     (str "duration", PyVal.pyStr e.duration),
     (str "degree", PyVal.pyStr e.degree)] e.institution rfl
  have hin : pyIn (str "duration")
      (.pyDict [(str "institution", PyVal.pyStr e.institution),
        (str "duration", PyVal.pyStr e.duration),
        (str "degree", PyVal.pyStr e.degree)]) = .ok true := rfl
  have hget : pyGetItem
      (.pyDict [(str "institution", PyVal.pyStr e.institution),
        (str "duration", PyVal.pyStr e.duration),
        (str "degree", PyVal.pyStr e.degree)]) (str "duration") =
      .ok (.pyStr e.duration) := rfl
  have hset : ∀ v : PyVal, pySetItem
      (.pyDict [(str "institution", PyVal.pyStr e.institution),
        (str "duration", PyVal.pyStr e.duration),
        (str "degree", PyVal.pyStr e.degree)]) (str "duration") v =
      .ok (.pyDict [(str "institution", PyVal.pyStr e.institution),
        (str "duration", v), (str "degree", PyVal.pyStr e.degree)]) := fun v => rfl
  have h3 : ∀ dv : Str, backfill (str "degree") (.pyStr [])
      (.pyDict [(str "institution", PyVal.pyStr e.institution),
        (str "duration", PyVal.pyStr dv), (str "degree", PyVal.pyStr e.degree)]) =
      .ok (.pyDict [(str "institution", PyVal.pyStr e.institution),
        (str "duration", PyVal.pyStr dv), (str "degree", PyVal.pyStr e.degree)]) :=
    fun dv => backfill_keep (str "degree") _ e.degree rfl
  simp only [vedu, eduToPy, h1, except_bind_ok, hin, hget, hset, truthy, asStr,
    eq_self_iff_true, if_true, except_bind_pure]
  by_cases hdur : e.duration = []
  · rw [if_neg (show ¬ decide (e.duration ≠ []) = true from by simp [hdur])]
    rw [h3 []]
    simp only [eduToPy, eduValidate, hdur]
    rw [if_neg (by simp)]
  · rw [if_pos (show decide (e.duration ≠ []) = true from by simp [hdur])]
    rw [h3 (format_duration e.duration false)]
    simp only [eduToPy, eduValidate]
    rw [if_pos hdur]

theorem vedus_map : ∀ l : List Education,
    vedus (l.map eduToPy) = .ok ((l.map eduValidate).map eduToPy) := by
  intro l
  induction l with
  | nil => rfl
  | cons e es ih =>
    simp only [List.map_cons, vedus, vedu_eduToPy, except_bind_ok, ih]
    rfl

theorem vcert_certToPy (c : Certification) : vcert (certToPy c) = .ok (certToPy c) := by
  have h1 := backfill_keep (str "name")
    [(str "name", PyVal.pyStr c.name), (str "year", PyVal.pyStr c.year),
     (str "provider", PyVal.pyStr c.provider), (str "location", PyVal.pyStr c.location)]
    c.name rfl
  have h2 := backfill_keep (str "year")
    [(str "name", PyVal.pyStr c.name), (str "year", PyVal.pyStr c.year),
     (str "provider", PyVal.pyStr c.provider), (str "location", PyVal.pyStr c.location)]
    c.year rfl
  have h3 := backfill_keep (str "provider")
    [(str "name", PyVal.pyStr c.name), (str "year", PyVal.pyStr c.year),
     (str "provider", PyVal.pyStr c.provider), (str "location", PyVal.pyStr c.location)]
    c.provider rfl
  have h4 := backfill_keep (str "location")
    [(str "name", PyVal.pyStr c.name), (str "year", PyVal.pyStr c.year),
     (str "provider", PyVal.pyStr c.provider), (str "location", PyVal.pyStr c.location)]
    c.location rfl
  simp only [vcert, certToPy, except_bind_ok, h1, h2, h3, h4]

theorem vcerts_map : ∀ l : List Certification,
    vcerts (l.map certToPy) = .ok (l.map certToPy) := by
  intro l
  induction l with
  | nil => rfl
  | cons e es ih =>
    simp only [List.map_cons, vcerts, vcert_certToPy, except_bind_ok, ih]
    rfl

/-- The mapping produced by the validator on a fully-shaped input. -/
def validatedPy (r : Record) : List (Str × PyVal) :=
  [(str "candidate_name", .pyStr (format_name
      (if r.candidate_name = [] ∨ r.candidate_name = str "Candidate Name Not Provided" then
        str "Candidate Name Not Provided" else r.candidate_name))),
   (str "position", .pyStr (format_name r.position)),
   (str "total_experience_years", .pyStr r.total_experience_years),
   (str "phone", .pyStr r.phone),
   (str "email", .pyStr r.email),
   (str "intro_paragraph", .pyStr r.intro_paragraph),
   (str "experiences", .pyList ((expsValidate 0 r.experiences).map expToPy)),
   (str "education", .pyList ((r.education.map eduValidate).map eduToPy)),
   (str "certifications", .pyList (r.certifications.map certToPy)),
   (str "technical_skills", .pyList (r.technical_skills.map .pyStr)),
   (str "language_skills", .pyList ((if r.language_skills = [] then
      [str "English - Fluent"] else r.language_skills).map .pyStr))]

set_option maxRecDepth 100000 in
/-- Counterexample to C4 as stated: a mapping whose `experiences` value is
the integer 1 makes the validator iterate over a non-iterable and raise a
`TypeError` — there is no isinstance guard on `experiences`, unlike
education and certifications. -/
theorem validate_data_claim_counterexample :
    validate_data [(str "experiences", PyVal.pyInt 1)] = .error () := rfl


/-- Shape of every mapping the validator builds from a fully-shaped input:
the eleven fields in insertion order. -/
def pyTpl (va vb vc vd ve vf vg vh vi vj vk : PyVal) : List (Str × PyVal) :=
  [(str "candidate_name", va), (str "position", vb),
   (str "total_experience_years", vc), (str "phone", vd), (str "email", ve),
   (str "intro_paragraph", vf), (str "experiences", vg), (str "education", vh),
   (str "certifications", vi), (str "technical_skills", vj),
   (str "language_skills", vk)]

theorem vPhase1_tpl (s : Str) (vb vc vd ve vf vg vh vi vj vk : PyVal) :
    vPhase1 (pyTpl (.pyStr s) vb vc vd ve vf vg vh vi vj vk) =
      pyTpl (.pyStr (if s = [] ∨ s = str "Candidate Name Not Provided" then
        str "Candidate Name Not Provided" else s)) vb vc vd ve vf vg vh vi vj vk := by
  rw [vPhase1,
    show dget (pyTpl (.pyStr s) vb vc vd ve vf vg vh vi vj vk) (str "candidate_name") =
      .pyStr s from rfl]
  by_cases hs : s = [] ∨ s = str "Candidate Name Not Provided"
  · rw [if_pos hs,
      if_pos (show (!truthy (PyVal.pyStr s) ||
          pyEqStr (PyVal.pyStr s) (str "Candidate Name Not Provided")) = true from by
        rcases hs with h | h <;> simp [truthy, pyEqStr, h])]
    rfl
  · rw [if_neg hs,
      if_neg (show ¬ (!truthy (PyVal.pyStr s) ||
          pyEqStr (PyVal.pyStr s) (str "Candidate Name Not Provided")) = true from by
        push_neg at hs
        simp [truthy, pyEqStr, hs.1, hs.2])]

theorem vPhase2_tpl (s : Str) (vb vc vd ve vf vg vh vi vj vk : PyVal) :
    vPhase2 (pyTpl (.pyStr s) vb vc vd ve vf vg vh vi vj vk) =
      .ok (pyTpl (.pyStr (format_name s)) vb vc vd ve vf vg vh vi vj vk) := rfl

theorem vPhase3_tpl (p : Str) (va vc vd ve vf vg vh vi vj vk : PyVal) :
    vPhase3 (pyTpl va (.pyStr p) vc vd ve vf vg vh vi vj vk) =
      .ok (pyTpl va (.pyStr (format_name p)) vc vd ve vf vg vh vi vj vk) := rfl

theorem vPhase4_tpl (L : List PyVal) (va vb vc vd ve vf vg vh vi vj : PyVal) :
    vPhase4 (pyTpl va vb vc vd ve vf vg vh vi vj (.pyList L)) =
      pyTpl va vb vc vd ve vf vg vh vi vj
        (.pyList (if L.isEmpty = true then [.pyStr (str "English - Fluent")] else L)) := by
  rw [vPhase4,
    show dmem (pyTpl va vb vc vd ve vf vg vh vi vj (.pyList L)) (str "language_skills") =
      true from rfl,
    show dget (pyTpl va vb vc vd ve vf vg vh vi vj (.pyList L)) (str "language_skills") =
      .pyList L from rfl]
  cases hL : L.isEmpty with
  | true =>
    rw [if_pos (by simp [truthy, hL]), if_pos rfl]
    rfl
  | false =>
    rw [if_neg (by simp [truthy, hL]),
      if_neg (show ¬ (false : Bool) = true from by decide)]

theorem vPhase5_tpl (va vb vc vd ve vf vg vh vi vj vk : PyVal) :
    vPhase5 (pyTpl va vb vc vd ve vf vg vh vi vj vk) =
      pyTpl va vb vc vd ve vf vg vh vi vj vk := rfl

theorem vPhase6_tpl (l : List Experience) (va vb vc vd ve vf vh vi vj vk : PyVal) :
    vPhase6 (pyTpl va vb vc vd ve vf (.pyList (l.map expToPy)) vh vi vj vk) =
      .ok (pyTpl va vb vc vd ve vf (.pyList ((expsValidate 0 l).map expToPy))
        vh vi vj vk) := by
  simp only [vPhase6,
    show pyIter (dget (pyTpl va vb vc vd ve vf (.pyList (l.map expToPy)) vh vi vj vk)
      (str "experiences")) = .ok (l.map expToPy) from rfl,
    except_bind_ok, vexps1_map]
  rfl

theorem vPhase7_tpl (l : List Experience) (va vb vc vd ve vf vh vi vj vk : PyVal) :
    vPhase7 (pyTpl va vb vc vd ve vf (.pyList (l.map expToPy)) vh vi vj vk) =
      .ok (pyTpl va vb vc vd ve vf (.pyList (l.map expToPy)) vh vi vj vk) := by
  simp only [vPhase7,
    show pyIter (dget (pyTpl va vb vc vd ve vf (.pyList (l.map expToPy)) vh vi vj vk)
      (str "experiences")) = .ok (l.map expToPy) from rfl,
    except_bind_ok, vexps2_map]
  rfl

theorem vPhase8_tpl (hl : List PyVal) (va vb vc vd ve vf vg vi vj vk : PyVal) :
    vPhase8 (pyTpl va vb vc vd ve vf vg (.pyList hl) vi vj vk) =
      pyTpl va vb vc vd ve vf vg (.pyList hl) vi vj vk := rfl

theorem vPhase9_tpl (l : List Education) (va vb vc vd ve vf vg vi vj vk : PyVal) :
    vPhase9 (pyTpl va vb vc vd ve vf vg (.pyList (l.map eduToPy)) vi vj vk) =
      .ok (pyTpl va vb vc vd ve vf vg (.pyList ((l.map eduValidate).map eduToPy))
        vi vj vk) := by
  simp only [vPhase9,
    show pyIter (dget (pyTpl va vb vc vd ve vf vg (.pyList (l.map eduToPy)) vi vj vk)
      (str "education")) = .ok (l.map eduToPy) from rfl,
    except_bind_ok, vedus_map]
  rfl

theorem vPhase10_tpl (il : List PyVal) (va vb vc vd ve vf vg vh vj vk : PyVal) :
    vPhase10 (pyTpl va vb vc vd ve vf vg vh (.pyList il) vj vk) =
      pyTpl va vb vc vd ve vf vg vh (.pyList il) vj vk := rfl

theorem vPhase11_tpl (l : List Certification) (va vb vc vd ve vf vg vh vj vk : PyVal) :
    vPhase11 (pyTpl va vb vc vd ve vf vg vh (.pyList (l.map certToPy)) vj vk) =
      .ok (pyTpl va vb vc vd ve vf vg vh (.pyList (l.map certToPy)) vj vk) := by
  simp only [vPhase11,
    show pyIter (dget (pyTpl va vb vc vd ve vf vg vh (.pyList (l.map certToPy)) vj vk)
      (str "certifications")) = .ok (l.map certToPy) from rfl,
    except_bind_ok, vcerts_map]
  rfl

set_option maxRecDepth 100000 in
/-- C4 (amended): on a fully-shaped mapping — every field present, strings
for the scalar fields, dict lists for experiences/education/certifications —
the validator succeeds and returns the fully-populated mapping: candidate
name backfilled when falsy or the placeholder and then name-formatted,
position name-formatted, empty language skills defaulted, roles and
durations formatted (the first experience flagged), blank experience fields
and non-list responsibilities backfilled, education durations formatted or
backfilled, certification fields backfilled; and a mapping whose education
and certifications are non-lists is recovered to empty lists — but a
non-list `experiences` value raises instead (see the counterexample). -/
theorem validate_data_wellshaped (r : Record) :
    validate_data (recordToPy r) = .ok (validatedPy r) ∧
    validate_data [(str "candidate_name", PyVal.pyStr (str "Jane Doe")),
      (str "education", PyVal.pyInt 5), (str "certifications", PyVal.pyInt 7)] =
      .ok [(str "candidate_name", PyVal.pyStr (str "Jane Doe")),
        (str "education", PyVal.pyList []), (str "certifications", PyVal.pyList []),
        (str "language_skills", PyVal.pyList [PyVal.pyStr (str "English - Fluent")]),
        (str "experiences", PyVal.pyList [])] := by
  refine ⟨?_, by rfl⟩
  rw [show recordToPy r = pyTpl (.pyStr r.candidate_name) (.pyStr r.position)
    (.pyStr r.total_experience_years) (.pyStr r.phone) (.pyStr r.email)
    (.pyStr r.intro_paragraph) (.pyList (r.experiences.map expToPy))
    (.pyList (r.education.map eduToPy)) (.pyList (r.certifications.map certToPy))
    (.pyList (r.technical_skills.map .pyStr)) (.pyList (r.language_skills.map .pyStr))
    from rfl]
  simp only [validate_data, vPhase1_tpl, vPhase2_tpl, vPhase3_tpl, vPhase4_tpl,
    vPhase5_tpl, vPhase6_tpl, vPhase7_tpl, vPhase8_tpl, vPhase9_tpl, vPhase10_tpl,
    vPhase11_tpl, except_bind_ok, except_bind_pure]
  simp only [pyTpl, validatedPy]
  cases hls : r.language_skills with
  | nil => simp
  | cons a l => simp
